import Mathlib

/-!
# dsutils `clone/copy.go`: a shallow embedding and its verified properties

The Go function `clone` has two parts.

* Lines 47-115 are sequential: endpoint-count validation, opening of the
  source and destination stores, and the source query.  They are embedded as
  the function `clone`, which threads the trace of external effects and calls
  an explicit `World` for everything that lives outside the repository
  (`badger.NewDatastore`, `os.MkdirAll`, `url.Parse`, `mongods.New`,
  `from.Query`).
* Lines 117-162 are concurrent: one orchestrating goroutine and one goroutine
  per entry, synchronised by the buffered channel `lim` and the mutex `lock`.
  They are embedded as an executable small-step function `step` over `State`;
  a schedule is a list of `Action`s and `run` executes it.  The critical
  sections guarded by `lock` are single steps.

Modelling choices.

* The enumeration `res.Next()` is the finite list of results the cursor
  delivers, fixed when `from.Query` returns.
* A send on `lim` needs a free buffer slot, or a goroutine already waiting in
  `<-lim` on the empty buffer (`Action.handoff`, the only way to send on an
  unbuffered channel); a receive needs a buffered token.
* A run-time panic (`make` with a negative size, a method call on a nil
  store, `count % 0`) stops the whole process.
* `ds.NewKey` belongs to go-datastore and is the parameter `newKey`.
* Logging, the deferred `res.Close()` and the deferred `cancel()` are not
  modelled (`verbose` only selects log lines).  The Go `int` counter `count`
  is a natural number: it is bounded by the number of entries.
-/

set_option linter.unusedVariables false

namespace Clone

/-! ## Data model -/

/-- Go's builtin `len` on a string: the number of bytes. -/
def len (s : String) : Nat := s.utf8ByteSize

/-- A `ds.Key` is a wrapped string. -/
abbrev Key := String

/-- A value is a byte slice. -/
abbrev Value := List Nat

/-- Identity of an opened `ds.TxnDatastore`. -/
abbrev Handle := Nat

/-- A `query.Entry`: key and value (the other fields are never read). -/
structure Entry where
  key : String
  value : Value
deriving DecidableEq, Repr

/-- A `query.Result`: an entry together with an optional read error. -/
structure Result where
  entry : Entry
  error : Option String
deriving DecidableEq, Repr

/-- Every error value `clone` can build, one constructor per `fmt.Errorf`. -/
inductive CloneError where
  | multipleSources
  | sourceNotSpecified
  | multipleDestinations
  | destinationNotSpecified
  | connectingBadgerSource (cause : String)
  | makingDestinationPath (cause : String)
  | connectingBadgerDestination (cause : String)
  | parsingSourceMongoURI (cause : String)
  | sourceMongoDatabaseNotSpecified
  | connectingMongoSource (cause : String)
  | parsingDestinationMongoURI (cause : String)
  | destinationMongoDatabaseNotSpecified
  | connectingMongoDestination (cause : String)
  | queryingSource (cause : String)
  | gettingNextSourceResult (cause : String)
  | hadErrors (n : Nat)
deriving DecidableEq, Repr

/-- The text of each error, as formatted by `fmt.Errorf` in the source. -/
def CloneError.message : CloneError → String
  | .multipleSources => "multiple sources specified"
  | .sourceNotSpecified => "source not specified"
  | .multipleDestinations => "multiple destinations specified"
  | .destinationNotSpecified => "destination not specified"
  | .connectingBadgerSource c => "connecting to badger source: " ++ c
  | .makingDestinationPath c => "making destination path: " ++ c
  | .connectingBadgerDestination c => "connecting to badger destination: " ++ c
  | .parsingSourceMongoURI c => "parsing source mongo URI: " ++ c
  | .sourceMongoDatabaseNotSpecified => "source mongo database not specified"
  | .connectingMongoSource c => "connecting to mongo source: " ++ c
  | .parsingDestinationMongoURI c => "parsing destination mongo URI: " ++ c
  | .destinationMongoDatabaseNotSpecified => "destination mongo database not specified"
  | .connectingMongoDestination c => "connecting to mongo destination: " ++ c
  | .queryingSource c => "querying source: " ++ c
  | .gettingNextSourceResult c => "getting next source result: " ++ c
  | .hadErrors n => "had " ++ toString n ++ " errors"

/-- The pair `(ds.TxnDatastore, error)` returned by `clone`; `none` is `nil`. -/
structure CloneResult where
  handle : Option Handle
  err : Option CloneError
deriving DecidableEq, Repr

/-- External calls that open a store or create a directory. -/
inductive Effect where
  | badgerNewDatastore (path : String)
  | mkdirAll (path : String)
  | mongoNew (uri database collection : String)
deriving DecidableEq, Repr

/-- The collaborators outside the repository.  Each call sees the trace of the
effects performed so far, so that its outcome may depend on the history.
An `Except.error c` / `some c` carries the text of the returned Go error. -/
structure World where
  badgerNewDatastore : List Effect → String → Except String Handle
  mkdirAll : List Effect → String → Option String
  urlParse : String → Option String
  mongoNew : List Effect → String → String → String → Except String Handle
  query : List Effect → Handle → Except String (List Result)
  contents : List Effect → Handle → Key → Option Value

/-! ## The copy loop as a transition system -/

/-- Progress of one write goroutine (lines 129-147). -/
inductive Phase where
  /-- Spawned, `to.Put` not yet called. -/
  | start
  /-- `to.Put` returned `nil`; the counter is not yet incremented. -/
  | putOk
  /-- `to.Put` returned an error; the message is not yet appended. -/
  | putErr (cause : String)
  /-- Outcome recorded; only the deferred `<-lim` remains. -/
  | done
deriving DecidableEq, Repr

/-- A write goroutine: the captured result `r` and its progress. -/
structure Task where
  entry : Entry
  phase : Phase
deriving DecidableEq, Repr

/-- Control point of the orchestrating goroutine (lines 122-162). -/
inductive MainPc where
  /-- At `for r := range res.Next()`, about to receive the next result. -/
  | next
  /-- At `lim <- struct{}{}` (line 126) for the error-free entry `e`. -/
  | acquire (e : Entry)
  /-- In the loop of lines 149-151 with loop variable `i`. -/
  | drain (i : Nat)
  /-- The function `clone` has returned `r`. -/
  | returned (r : CloneResult)
  /-- The process died of a run-time panic. -/
  | panicked
deriving DecidableEq, Repr

/-- One call of `to.Put`, recorded for the proofs; `outcome = none` is `nil`. -/
structure PutEvent where
  entry : Entry
  outcome : Option String
deriving DecidableEq, Repr

/-- The variables of `clone` during the copy, the contents of the destination
store, and three history fields (`puts`, `dispatched`, `effects`) that no step
ever reads. -/
structure State where
  /-- The variable `to`. -/
  toDS : Option Handle
  /-- Results not yet received from `res.Next()`. -/
  rest : List Result
  pc : MainPc
  /-- The value of `len(lim)`. -/
  tokens : Nat
  /-- Goroutines spawned at line 129 that have not finished. -/
  tasks : List Task
  errors : List String
  count : Nat
  /-- Contents of the destination store. -/
  dest : Key → Option Value
  /-- History: calls of `to.Put`, in the order they happened. -/
  puts : List PutEvent
  /-- History: entries for which a goroutine was spawned, in order. -/
  dispatched : List Entry
  /-- History: effects of the set-up part. -/
  effects : List Effect

/-- The choices of the scheduler and of the destination store. -/
inductive Action where
  /-- The orchestrating goroutine runs up to its next control point. -/
  | main
  /-- Goroutine `i` calls `to.Put`, which returns `outcome`. -/
  | put (i : Nat) (outcome : Option String)
  /-- Goroutine `i` runs its critical section under `lock`. -/
  | record (i : Nat)
  /-- Goroutine `i` runs its deferred `<-lim`, taking a buffered token. -/
  | release (i : Nat)
  /-- The buffer of `lim` is empty, goroutine `i` waits in `<-lim`, and the
  send of the orchestrating goroutine is handed to it directly. -/
  | handoff (i : Nat)
deriving DecidableEq, Repr

/-- The value of `cap(lim)` after `make(chan struct{}, parallel)`. -/
def cap (parallel : Int) : Nat := parallel.toNat

/-- A store after a successful `Put`. -/
def update (d : Key → Option Value) (k : Key) (v : Value) : Key → Option Value :=
  fun k' => if k' = k then some v else d k'

/-- The process has not panicked. -/
def State.alive (s : State) : Bool :=
  match s.pc with
  | .panicked => false
  | _ => true

/-- The orchestrating goroutine: lines 122-128 and 149-162. -/
def stepMain (parallel : Int) (s : State) : Option State :=
  match s.pc with
  | .next =>
    match s.rest with
    | [] => some { s with pc := .drain 0 }
    | r :: rs =>
      match r.error with
      | some c =>
        some { s with rest := rs, pc := .returned ⟨none, some (.gettingNextSourceResult c)⟩ }
      | none => some { s with rest := rs, pc := .acquire r.entry }
  | .acquire e =>
    if s.tokens < cap parallel then
      some { s with tokens := s.tokens + 1, tasks := s.tasks ++ [⟨e, .start⟩],
                    dispatched := s.dispatched ++ [e], pc := .next }
    else none
  | .drain i =>
    if i < cap parallel then
      if s.tokens < cap parallel then
        some { s with tokens := s.tokens + 1, pc := .drain (i + 1) }
      else none
    else if s.errors.length > 0 then
      some { s with pc := .returned ⟨none, some (.hadErrors s.errors.length)⟩ }
    else some { s with pc := .returned ⟨s.toDS, none⟩ }
  | .returned _ => none
  | .panicked => none

/-- Line 132: `to.Put(ds.NewKey(r.Key), r.Value)` in goroutine `i`. -/
def stepPut (newKey : String → Key) (s : State) (i : Nat) (outcome : Option String) :
    Option State :=
  match s.tasks[i]? with
  | some ⟨e, .start⟩ =>
    match s.toDS with
    | none => some { s with pc := .panicked }
    | some _ =>
      match outcome with
      | none =>
        some { s with tasks := s.tasks.set i ⟨e, .putOk⟩,
                      dest := update s.dest (newKey e.key) e.value,
                      puts := s.puts ++ [⟨e, none⟩] }
      | some c =>
        some { s with tasks := s.tasks.set i ⟨e, .putErr c⟩,
                      puts := s.puts ++ [⟨e, some c⟩] }
  | _ => none

/-- Lines 133-136 and 141-146: the critical section of goroutine `i`. -/
def stepRecord (parallel : Int) (s : State) (i : Nat) : Option State :=
  match s.tasks[i]? with
  | some ⟨e, .putErr c⟩ =>
    some { s with tasks := s.tasks.set i ⟨e, .done⟩,
                  errors := s.errors ++ ["copying " ++ e.key ++ ": " ++ c] }
  | some ⟨e, .putOk⟩ =>
    if parallel = 0 then some { s with count := s.count + 1, pc := .panicked }
    else some { s with tasks := s.tasks.set i ⟨e, .done⟩, count := s.count + 1 }
  | _ => none

/-- Line 130: the deferred `<-lim` of goroutine `i`, from the buffer. -/
def stepRelease (s : State) (i : Nat) : Option State :=
  match s.tasks[i]? with
  | some ⟨_, .done⟩ =>
    if 0 < s.tokens then
      some { s with tokens := s.tokens - 1, tasks := s.tasks.eraseIdx i }
    else none
  | _ => none

/-- A send of the orchestrating goroutine (line 126 or 150) meeting the
receive of goroutine `i` on the empty buffer. -/
def stepHandoff (parallel : Int) (s : State) (i : Nat) : Option State :=
  if s.tokens = 0 then
    match s.tasks[i]? with
    | some ⟨_, .done⟩ =>
      match s.pc with
      | .acquire e =>
        some { s with tasks := s.tasks.eraseIdx i ++ [⟨e, .start⟩],
                      dispatched := s.dispatched ++ [e], pc := .next }
      | .drain j =>
        if j < cap parallel then
          some { s with tasks := s.tasks.eraseIdx i, pc := .drain (j + 1) }
        else none
      | _ => none
    | _ => none
  else none

/-- One step of the copy loop.  Goroutines keep running after `clone` has
returned; nothing runs after a panic. -/
def step (newKey : String → Key) (parallel : Int) (s : State) (a : Action) : Option State :=
  if s.alive then
    match a with
    | .main => stepMain parallel s
    | .put i outcome => stepPut newKey s i outcome
    | .record i => stepRecord parallel s i
    | .release i => stepRelease s i
    | .handoff i => stepHandoff parallel s i
  else none

/-- Execute a schedule; `none` when one of its actions is not enabled. -/
def run (newKey : String → Key) (parallel : Int) : State → List Action → Option State
  | s, [] => some s
  | s, a :: as =>
    match step newKey parallel s a with
    | none => none
    | some s' => run newKey parallel s' as

/-! ## The sequential part of `clone` -/

/-- The state in which `clone` has returned `nil, e` before the copy loop. -/
def returnError (e : CloneError) (tr : List Effect) : State :=
  { toDS := none, rest := [], pc := .returned ⟨none, some e⟩, tokens := 0, tasks := [],
    errors := [], count := 0, dest := fun _ => none, puts := [], dispatched := [],
    effects := tr }

/-- Lines 117-121: the state at the head of the copy loop. -/
def copyInit (toDS : Option Handle) (results : List Result) (dest0 : Key → Option Value)
    (tr : List Effect) : State :=
  { toDS := toDS, rest := results, pc := .next, tokens := 0, tasks := [], errors := [],
    count := 0, dest := dest0, puts := [], dispatched := [], effects := tr }

/-- Lines 62-68. -/
def openBadgerSource (w : World) (fromBadgerRepo : String) (tr : List Effect) :
    Except (CloneError × List Effect) (Option Handle × List Effect) :=
  if len fromBadgerRepo ≠ 0 then
    match w.badgerNewDatastore tr fromBadgerRepo with
    | .error c =>
      .error (.connectingBadgerSource c, tr ++ [.badgerNewDatastore fromBadgerRepo])
    | .ok h => .ok (some h, tr ++ [.badgerNewDatastore fromBadgerRepo])
  else .ok (none, tr)

/-- Lines 69-78. -/
def openBadgerDestination (w : World) (toBadgerRepo : String) (tr : List Effect) :
    Except (CloneError × List Effect) (Option Handle × List Effect) :=
  if len toBadgerRepo ≠ 0 then
    match w.mkdirAll tr toBadgerRepo with
    | some c => .error (.makingDestinationPath c, tr ++ [.mkdirAll toBadgerRepo])
    | none =>
      match w.badgerNewDatastore (tr ++ [.mkdirAll toBadgerRepo]) toBadgerRepo with
      | .error c =>
        .error (.connectingBadgerDestination c,
          tr ++ [.mkdirAll toBadgerRepo, .badgerNewDatastore toBadgerRepo])
      | .ok h => .ok (some h, tr ++ [.mkdirAll toBadgerRepo, .badgerNewDatastore toBadgerRepo])
  else .ok (none, tr)

/-- Lines 82-95; `fromDS` is the variable `from` on entry. -/
def openMongoSource (w : World) (fromMongoUri fromMongoDatabase fromMongoCollection : String)
    (fromDS : Option Handle) (tr : List Effect) :
    Except (CloneError × List Effect) (Option Handle × List Effect) :=
  if len fromMongoUri ≠ 0 then
    match w.urlParse fromMongoUri with
    | some c => .error (.parsingSourceMongoURI c, tr)
    | none =>
      if len fromMongoDatabase = 0 then .error (.sourceMongoDatabaseNotSpecified, tr)
      else
        match w.mongoNew tr fromMongoUri fromMongoDatabase fromMongoCollection with
        | .error c =>
          .error (.connectingMongoSource c,
            tr ++ [.mongoNew fromMongoUri fromMongoDatabase fromMongoCollection])
        | .ok h =>
          .ok (some h, tr ++ [.mongoNew fromMongoUri fromMongoDatabase fromMongoCollection])
  else .ok (fromDS, tr)

/-- Lines 96-109; `toDS` is the variable `to` on entry. -/
def openMongoDestination (w : World) (toMongoUri toMongoDatabase toMongoCollection : String)
    (toDS : Option Handle) (tr : List Effect) :
    Except (CloneError × List Effect) (Option Handle × List Effect) :=
  if len toMongoUri ≠ 0 then
    match w.urlParse toMongoUri with
    | some c => .error (.parsingDestinationMongoURI c, tr)
    | none =>
      if len toMongoDatabase = 0 then .error (.destinationMongoDatabaseNotSpecified, tr)
      else
        match w.mongoNew tr toMongoUri toMongoDatabase toMongoCollection with
        | .error c =>
          .error (.connectingMongoDestination c,
            tr ++ [.mongoNew toMongoUri toMongoDatabase toMongoCollection])
        | .ok h =>
          .ok (some h, tr ++ [.mongoNew toMongoUri toMongoDatabase toMongoCollection])
  else .ok (toDS, tr)

/-- Contents of the destination store when the copy starts. -/
def initialContents (w : World) (tr : List Effect) (toDS : Option Handle) :
    Key → Option Value :=
  match toDS with
  | none => fun _ => none
  | some h => w.contents tr h

/-- Lines 111-121: the query on the source and the creation of `lim`.  A `nil`
source panics at `from.Query`, a negative `parallel` at `make`. -/
def startCopy (w : World) (fromDS toDS : Option Handle) (parallel : Int) (tr : List Effect) :
    State :=
  match fromDS with
  | none => { copyInit toDS [] (fun _ => none) tr with pc := .panicked }
  | some src =>
    match w.query tr src with
    | .error c => returnError (.queryingSource c) tr
    | .ok results =>
      if parallel < 0 then
        { copyInit toDS results (initialContents w tr toDS) tr with pc := .panicked }
      else copyInit toDS results (initialContents w tr toDS) tr

/-- Lines 60-109: the four opening blocks, in the order of the source.  The
result is the error returned together with the effects performed before it, or
the variables `from` and `to` and the effects. -/
def openStores (w : World)
    (fromBadgerRepo fromMongoUri fromMongoDatabase fromMongoCollection : String)
    (toBadgerRepo toMongoUri toMongoDatabase toMongoCollection : String) :
    Except (CloneError × List Effect) (Option Handle × Option Handle × List Effect) :=
  match openBadgerSource w fromBadgerRepo [] with
  | .error x => .error x
  | .ok (from1, tr1) =>
  match openBadgerDestination w toBadgerRepo tr1 with
  | .error x => .error x
  | .ok (to1, tr2) =>
  match openMongoSource w fromMongoUri fromMongoDatabase fromMongoCollection from1 tr2 with
  | .error x => .error x
  | .ok (from2, tr3) =>
  match openMongoDestination w toMongoUri toMongoDatabase toMongoCollection to1 tr3 with
  | .error x => .error x
  | .ok (to2, tr4) => .ok (from2, to2, tr4)

/-- Lines 47-109: endpoint-count validation, then the opening of the stores. -/
def setup (w : World)
    (fromBadgerRepo fromMongoUri fromMongoDatabase fromMongoCollection : String)
    (toBadgerRepo toMongoUri toMongoDatabase toMongoCollection : String) :
    Except (CloneError × List Effect) (Option Handle × Option Handle × List Effect) :=
  if len fromBadgerRepo ≠ 0 ∧ len fromMongoUri ≠ 0 then .error (.multipleSources, [])
  else if len fromBadgerRepo = 0 ∧ len fromMongoUri = 0 then
    .error (.sourceNotSpecified, [])
  else if len toBadgerRepo ≠ 0 ∧ len toMongoUri ≠ 0 then
    .error (.multipleDestinations, [])
  else if len toBadgerRepo = 0 ∧ len toMongoUri = 0 then
    .error (.destinationNotSpecified, [])
  else
    openStores w fromBadgerRepo fromMongoUri fromMongoDatabase fromMongoCollection
      toBadgerRepo toMongoUri toMongoDatabase toMongoCollection

/-- The function `clone` up to the head of the copy loop: the state it yields
is either final (an early `return nil, err`, or a panic) or the initial state
of the copy loop, which `step` then drives. -/
def clone (w : World)
    (fromBadgerRepo fromMongoUri fromMongoDatabase fromMongoCollection : String)
    (toBadgerRepo toMongoUri toMongoDatabase toMongoCollection : String)
    (parallel : Int) (verbose : Bool) : State :=
  match setup w fromBadgerRepo fromMongoUri fromMongoDatabase fromMongoCollection
      toBadgerRepo toMongoUri toMongoDatabase toMongoCollection with
  | .error (e, tr) => returnError e tr
  | .ok (fromDS, toDS, tr) => startCopy w fromDS toDS parallel tr

/-- The only exported operation (lines 22-31). -/
def CloneFromRemoteToLocal (w : World)
    (fromMongoUri fromMongoDatabase fromMongoCollection toBadgerRepo : String)
    (parallel : Int) (verbose : Bool) : State :=
  clone w "" fromMongoUri fromMongoDatabase fromMongoCollection toBadgerRepo "" "" ""
    parallel verbose

/-! ## Observations on executions -/

/-- State `s` is reached from `init` by some schedule. -/
def Reachable (newKey : String → Key) (parallel : Int) (init s : State) : Prop :=
  ∃ acts, run newKey parallel init acts = some s

/-- Started in `init`, `clone` returns `r` under some schedule. -/
def Returns (newKey : String → Key) (parallel : Int) (init : State) (r : CloneResult) : Prop :=
  ∃ s, Reachable newKey parallel init s ∧ s.pc = .returned r

/-- Started in `init`, `clone` returns the error `e` under some schedule. -/
def ReturnsError (newKey : String → Key) (parallel : Int) (init : State) (e : CloneError) :
    Prop :=
  ∃ r, Returns newKey parallel init r ∧ r.err = some e

/-- The four endpoint-count errors of lines 47-58. -/
def CloneError.isEndpointCount : CloneError → Bool
  | .multipleSources => true
  | .sourceNotSpecified => true
  | .multipleDestinations => true
  | .destinationNotSpecified => true
  | _ => false

/-- The rejected writes among the calls of `to.Put`. -/
def rejected (puts : List PutEvent) : List PutEvent :=
  puts.filter (fun p => p.outcome.isSome)

/-- The accepted writes among the calls of `to.Put`. -/
def accepted (puts : List PutEvent) : List PutEvent :=
  puts.filter (fun p => p.outcome.isNone)

/-- An error-free result carrying entry `e`. -/
def okResult (e : Entry) : Result := ⟨e, none⟩

/-! ## Invariant and termination measure -/

/-- Effect of one `to.Put` on the contents of the destination. -/
def applyPut (newKey : String → Key) (d : Key → Option Value) (p : PutEvent) :
    Key → Option Value :=
  match p.outcome with
  | none => update d (newKey p.entry.key) p.entry.value
  | some _ => d

/-- The goroutine has not yet recorded its outcome. -/
def Task.unrecorded (t : Task) : Bool :=
  match t.phase with
  | .done => false
  | _ => true

/-- The goroutine has not yet called `to.Put`. -/
def Task.isStart (t : Task) : Bool :=
  match t.phase with
  | .start => true
  | _ => false

/-- The write succeeded and the counter is not yet incremented. -/
def Task.isPutOk (t : Task) : Bool :=
  match t.phase with
  | .putOk => true
  | _ => false

/-- The write failed and the message is not yet appended. -/
def Task.isPutErr (t : Task) : Bool :=
  match t.phase with
  | .putErr _ => true
  | _ => false

/-- The invariant of the copy loop started on `results` with destination
contents `dest0`: token accounting of `lim`, position of the orchestrating
goroutine in the enumeration, and the bookkeeping that ties `count`, `errors`,
the calls of `to.Put` and the destination contents together. -/
structure Inv (newKey : String → Key) (parallel : Int) (toDS0 : Option Handle)
    (results : List Result) (dest0 : Key → Option Value) (s : State) : Prop where
  toDS_eq : s.toDS = toDS0
  tokens_le : s.tokens ≤ cap parallel
  tasks_le : s.tasks.length ≤ s.tokens
  pcInv :
    match s.pc with
    | .next => s.tokens = s.tasks.length ∧ results = s.dispatched.map okResult ++ s.rest
    | .acquire e =>
      s.tokens = s.tasks.length ∧ results = s.dispatched.map okResult ++ okResult e :: s.rest
    | .drain i =>
      s.tokens = s.tasks.length + i ∧ results = s.dispatched.map okResult ∧ s.rest = []
    | .returned r =>
      (∃ c e, r = ⟨none, some (.gettingNextSourceResult c)⟩ ∧
          results = s.dispatched.map okResult ++ ⟨e, some c⟩ :: s.rest) ∨
      (s.tasks = [] ∧ results = s.dispatched.map okResult ∧
        r = if s.errors.length > 0 then ⟨none, some (.hadErrors s.errors.length)⟩
            else ⟨s.toDS, none⟩)
    | .panicked => s.toDS = none
  recorded : s.count + s.errors.length + s.tasks.countP Task.unrecorded = s.dispatched.length
  rejectedPuts : (rejected s.puts).length = s.errors.length + s.tasks.countP Task.isPutErr
  acceptedPuts : (accepted s.puts).length = s.count + s.tasks.countP Task.isPutOk
  putsPerm :
    (s.puts.map PutEvent.entry ++ (s.tasks.filter Task.isStart).map Task.entry).Perm s.dispatched
  destEq : s.dest = s.puts.foldl (applyPut newKey) dest0

/-- Steps a goroutine in the given phase still has to take. -/
def Phase.weight : Phase → Nat
  | .start => 3
  | .putOk => 2
  | .putErr _ => 2
  | .done => 1

/-- An upper bound on the steps the orchestrating goroutine can still cause. -/
def mainWeight (parallel : Int) (s : State) : Nat :=
  match s.pc with
  | .next => 5 * s.rest.length + cap parallel + 2
  | .acquire _ => 5 * s.rest.length + cap parallel + 6
  | .drain i => cap parallel - i + 1
  | .returned _ => 0
  | .panicked => 0

/-- An upper bound on the number of steps any schedule can still take. -/
def stepsLeft (parallel : Int) (s : State) : Nat :=
  if s.alive then 1 + mainWeight parallel s + (s.tasks.map (fun t => t.phase.weight)).sum
  else 0

/-- Every execution from `init` is finite, with at most `stepsLeft` steps, and
from every state it reaches it can be completed to a return of `clone`: no
execution stops or loops before the return. -/
def AlwaysReturns (newKey : String → Key) (parallel : Int) (init : State) : Prop :=
  ∀ acts s, run newKey parallel init acts = some s →
    acts.length ≤ stepsLeft parallel init ∧
    ∃ acts' s' r, run newKey parallel s acts' = some s' ∧ s'.pc = .returned r

/-! ## Concrete inputs -/

/-- The source of Scenarios A and C: keys `a`, `b`, `c` with the one-byte
values `"1"`, `"2"`, `"3"`. -/
def scenarioSource : List Result :=
  [okResult ⟨"a", [49]⟩, okResult ⟨"b", [50]⟩, okResult ⟨"c", [51]⟩]

/-- A world in which every external call succeeds and the source is empty. -/
def worldAllOk : World :=
  { badgerNewDatastore := fun _ _ => .ok 1
    mkdirAll := fun _ _ => none
    urlParse := fun _ => none
    mongoNew := fun _ _ _ _ => .ok 2
    query := fun _ _ => .ok []
    contents := fun _ _ _ => none }

/-- A world in which the destination directory cannot be created. -/
def worldMkdirFails : World :=
  { worldAllOk with mkdirAll := fun _ _ => some "permission denied" }

/-- The schedule of scenario A used by the witnesses. -/
def scheduleA : List Action :=
  [.main, .main, .main, .main, .put 0 none, .put 1 none, .record 1, .release 1, .main, .main,
   .put 1 none, .record 0, .record 1, .release 0, .release 0, .main, .main, .main, .main]

/-- The part of go-datastore's `ds.NewKey` that matters for keys without dots
or doubled slashes: a key that lacks the leading slash gets one. -/
def newKeyLeadingSlash (s : String) : Key :=
  match s.data with
  | '/' :: _ => s
  | _ => "/" ++ s

/-- Two entries with the distinct source keys `a` and `/a`. -/
def mergedSource : List Result :=
  [okResult ⟨"a", [49]⟩, okResult ⟨"/a", [50]⟩]

/-- A schedule copying `mergedSource` one entry after the other, every write
accepted. -/
def scheduleMerged : List Action :=
  [.main, .main, .put 0 none, .record 0, .release 0, .main, .main, .put 0 none, .record 0,
   .release 0, .main, .main, .main, .main]

/-- A world for Scenarios A and C: a remote source holding `scenarioSource`
and an empty local destination with handle 7. -/
def worldScenario : World :=
  { badgerNewDatastore := fun _ _ => .ok 7
    mkdirAll := fun _ _ => none
    urlParse := fun _ => none
    mongoNew := fun _ _ _ _ => .ok 1
    query := fun _ _ => .ok scenarioSource
    contents := fun _ _ _ => none }

/-- A schedule of scenario C: the write of `b` is rejected. -/
def scheduleC : List Action :=
  [.main, .main, .main, .main, .put 1 (some "disk full"), .put 0 none, .record 1, .release 1,
   .main, .main, .put 1 none, .record 0, .record 1, .release 0, .release 0, .main, .main,
   .main, .main]

/-! ## Lemmas -/

/-- Decomposition of a list around its `i`-th element. -/
theorem split_at {α : Type} (l : List α) (i : Nat) (t : α) (h : l[i]? = some t) :
    ∃ l1 l2, l = l1 ++ t :: l2 ∧ (∀ t', l.set i t' = l1 ++ t' :: l2) ∧
      l.eraseIdx i = l1 ++ l2 := by
  induction l generalizing i with
  | nil => simp at h
  | cons x xs ih =>
    cases i with
    | zero =>
      simp at h
      subst h
      exact ⟨[], xs, by simp, by simp, by simp⟩
    | succ j =>
      simp at h
      obtain ⟨l1, l2, h1, h2, h3⟩ := ih j h
      refine ⟨x :: l1, l2, by simp [h1], ?_, ?_⟩
      · intro t'; simp [h2 t']
      · simp [h3]

theorem inv_init (newKey : String → Key) (parallel : Int) (toDS : Option Handle)
    (results : List Result) (dest0 : Key → Option Value) (tr : List Effect) :
    Inv newKey parallel toDS results dest0 (copyInit toDS results dest0 tr) := by
  constructor <;> simp [copyInit, rejected, accepted]

theorem inv_stepMain {newKey : String → Key} {parallel : Int} {toDS0 : Option Handle}
    {results : List Result} {dest0 : Key → Option Value} {s s' : State}
    (hI : Inv newKey parallel toDS0 results dest0 s) (h : stepMain parallel s = some s') :
    Inv newKey parallel toDS0 results dest0 s' := by
  obtain ⟨h1, h2, h3, h4, h5, h6, h7, h8, h9⟩ := hI
  unfold stepMain at h
  split at h
  · -- next
    rename_i hpc
    rw [hpc] at h4
    split at h
    · rename_i hrest
      injection h with h; subst h
      constructor <;> simp_all
    · rename_i r rs hrest
      split at h
      · rename_i c hc
        injection h with h; subst h
        constructor <;> simp_all
        exact ⟨r.entry, by cases r; simp_all⟩
      · rename_i hc
        injection h with h; subst h
        constructor <;> simp_all [okResult]
        cases r; simp_all
  · -- acquire
    rename_i e hpc
    rw [hpc] at h4
    split at h
    · injection h with h; subst h
      have hp := h8.append_right [e]
      constructor <;>
        simp_all [Task.unrecorded, Task.isPutErr, Task.isPutOk, Task.isStart] <;> omega
    · simp at h
  · rename_i i hpc
    rw [hpc] at h4
    split at h
    · split at h
      · injection h with h; subst h
        constructor <;> simp_all <;> omega
      · simp at h
    · have ht : s.tasks = [] := by
        apply List.eq_nil_of_length_eq_zero
        omega
      split at h
      · injection h with h; subst h
        constructor <;> simp_all
      · injection h with h; subst h
        constructor <;> simp_all
  · simp at h
  · simp at h

theorem inv_stepPut {newKey : String → Key} {parallel : Int} {toDS0 : Option Handle}
    {results : List Result} {dest0 : Key → Option Value} {s s' : State} {i : Nat}
    {o : Option String}
    (hI : Inv newKey parallel toDS0 results dest0 s) (h : stepPut newKey s i o = some s') :
    Inv newKey parallel toDS0 results dest0 s' := by
  obtain ⟨h1, h2, h3, h4, h5, h6, h7, h8, h9⟩ := hI
  rw [List.perm_iff_count] at h8
  unfold stepPut at h
  split at h
  · rename_i e hi
    obtain ⟨l1, l2, hl, hset, -⟩ := split_at _ _ _ hi
    split at h
    · injection h with h; subst h
      constructor
      case putsPerm => rw [List.perm_iff_count]; exact h8
      all_goals simp_all
    · split at h
      · injection h with h; subst h
        constructor
        case putsPerm =>
          rw [List.perm_iff_count]; intro a; specialize h8 a
          simp_all [Task.isStart, List.count_cons]
          omega
        case pcInv => 
          simp only []
          split <;> simp_all
        all_goals
          simp_all [Task.unrecorded, Task.isPutErr, Task.isPutOk, rejected, accepted, applyPut,
            List.filter_cons] <;> omega
      · injection h with h; subst h
        constructor
        case putsPerm =>
          rw [List.perm_iff_count]; intro a; specialize h8 a
          simp_all [Task.isStart, List.count_cons]
          omega
        case pcInv => 
          simp only []
          split <;> simp_all
        all_goals
          simp_all [Task.unrecorded, Task.isPutErr, Task.isPutOk, rejected, accepted, applyPut,
            List.filter_cons] <;> omega
        
  · simp at h

theorem inv_stepRecord {newKey : String → Key} {parallel : Int} {toDS0 : Option Handle}
    {results : List Result} {dest0 : Key → Option Value} {s s' : State} {i : Nat}
    (hI : Inv newKey parallel toDS0 results dest0 s) (h : stepRecord parallel s i = some s') :
    Inv newKey parallel toDS0 results dest0 s' := by
  obtain ⟨h1, h2, h3, h4, h5, h6, h7, h8, h9⟩ := hI
  rw [List.perm_iff_count] at h8
  unfold stepRecord at h
  split at h
  · rename_i e c hi
    obtain ⟨l1, l2, hl, hset, -⟩ := split_at _ _ _ hi
    injection h with h; subst h
    constructor
    case putsPerm =>
      rw [List.perm_iff_count]; intro a; specialize h8 a
      simp_all [Task.isStart, List.count_cons]
    case pcInv =>
      simp only []
      split <;> simp_all
    all_goals
      simp_all [Task.unrecorded, Task.isPutErr, Task.isPutOk, rejected, accepted, applyPut,
        List.filter_cons] <;> omega
  · rename_i e hi
    obtain ⟨l1, l2, hl, hset, -⟩ := split_at _ _ _ hi
    split at h
    · rename_i hp
      exfalso
      have : cap parallel = 0 := by simp [cap, hp]
      simp_all
    · injection h with h; subst h
      constructor
      case putsPerm =>
        rw [List.perm_iff_count]; intro a; specialize h8 a
        simp_all [Task.isStart, List.count_cons]
      case pcInv =>
        simp only []
        split <;> simp_all
      all_goals
        simp_all [Task.unrecorded, Task.isPutErr, Task.isPutOk, rejected, accepted, applyPut,
          List.filter_cons] <;> omega
  · simp at h

theorem inv_stepRelease {newKey : String → Key} {parallel : Int} {toDS0 : Option Handle}
    {results : List Result} {dest0 : Key → Option Value} {s s' : State} {i : Nat}
    (hI : Inv newKey parallel toDS0 results dest0 s) (h : stepRelease s i = some s') :
    Inv newKey parallel toDS0 results dest0 s' := by
  obtain ⟨h1, h2, h3, h4, h5, h6, h7, h8, h9⟩ := hI
  rw [List.perm_iff_count] at h8
  unfold stepRelease at h
  split at h
  · rename_i e hi
    obtain ⟨l1, l2, hl, -, herase⟩ := split_at _ _ _ hi
    split at h
    · injection h with h; subst h
      constructor
      case putsPerm =>
        rw [List.perm_iff_count]; intro a; specialize h8 a
        simp_all [Task.isStart, List.count_cons]
      case pcInv =>
        simp only []
        split <;> simp_all
        all_goals omega
      all_goals
        simp_all [Task.unrecorded, Task.isPutErr, Task.isPutOk, rejected, accepted, applyPut,
          List.filter_cons] <;> omega
    · simp at h
  · simp at h

theorem inv_stepHandoff {newKey : String → Key} {parallel : Int} {toDS0 : Option Handle}
    {results : List Result} {dest0 : Key → Option Value} {s s' : State} {i : Nat}
    (hI : Inv newKey parallel toDS0 results dest0 s) (h : stepHandoff parallel s i = some s') :
    Inv newKey parallel toDS0 results dest0 s' := by
  exfalso
  have h3 := hI.tasks_le
  unfold stepHandoff at h
  split at h
  · rename_i ht
    split at h
    · rename_i e hi
      obtain ⟨l1, l2, hl, -, -⟩ := split_at _ _ _ hi
      simp_all
    · simp at h
  · simp at h

theorem inv_step {newKey : String → Key} {parallel : Int} {toDS0 : Option Handle}
    {results : List Result} {dest0 : Key → Option Value} {s s' : State} {a : Action}
    (hI : Inv newKey parallel toDS0 results dest0 s) (h : step newKey parallel s a = some s') :
    Inv newKey parallel toDS0 results dest0 s' := by
  unfold step at h
  split at h
  · cases a with
    | main => exact inv_stepMain hI h
    | put i o => exact inv_stepPut hI h
    | record i => exact inv_stepRecord hI h
    | release i => exact inv_stepRelease hI h
    | handoff i => exact inv_stepHandoff hI h
  · simp at h

theorem inv_run {newKey : String → Key} {parallel : Int} {toDS0 : Option Handle}
    {results : List Result} {dest0 : Key → Option Value} (acts : List Action) :
    ∀ {s s' : State}, Inv newKey parallel toDS0 results dest0 s →
      run newKey parallel s acts = some s' → Inv newKey parallel toDS0 results dest0 s' := by
  induction acts with
  | nil => intro s s' hI h; simp [run] at h; subst h; exact hI
  | cons a as ih =>
    intro s s' hI h
    simp only [run] at h
    split at h
    · simp at h
    · rename_i s1 hs1
      exact ih (inv_step hI hs1) h

theorem stepsLeft_step {newKey : String → Key} {parallel : Int} {s s' : State} {a : Action}
    (h : step newKey parallel s a = some s') : stepsLeft parallel s' < stepsLeft parallel s := by
  unfold step at h
  split at h
  · rename_i hal
    cases a with
    | main =>
      simp only [stepMain] at h
      split at h
      · split at h
        · injection h with h; subst h
          simp_all [stepsLeft, mainWeight, State.alive]
        · split at h
          · injection h with h; subst h
            simp_all [stepsLeft, mainWeight, State.alive]
          · injection h with h; subst h
            simp_all [stepsLeft, mainWeight, State.alive]
            omega
      · split at h
        · injection h with h; subst h
          simp_all [stepsLeft, mainWeight, State.alive, Phase.weight]
          omega
        · simp at h
      · split at h
        · split at h
          · injection h with h; subst h
            simp_all [stepsLeft, mainWeight, State.alive]
            omega
          · simp at h
        · split at h
          · injection h with h; subst h
            simp_all [stepsLeft, mainWeight, State.alive]
          · injection h with h; subst h
            simp_all [stepsLeft, mainWeight, State.alive]
      · simp at h
      · simp at h
    | put i o =>
      simp only [stepPut] at h
      split at h
      · rename_i e hi
        obtain ⟨l1, l2, hl, hset, -⟩ := split_at _ _ _ hi
        split at h
        · injection h with h; subst h
          simp_all [stepsLeft, State.alive]
        · split at h
          · injection h with h; subst h
            simp_all [stepsLeft, State.alive, mainWeight, Phase.weight]
          · injection h with h; subst h
            simp_all [stepsLeft, State.alive, mainWeight, Phase.weight]
      · simp at h
    | record i =>
      simp only [stepRecord] at h
      split at h
      · rename_i e c hi
        obtain ⟨l1, l2, hl, hset, -⟩ := split_at _ _ _ hi
        injection h with h; subst h
        simp_all [stepsLeft, State.alive, mainWeight, Phase.weight]
      · rename_i e hi
        obtain ⟨l1, l2, hl, hset, -⟩ := split_at _ _ _ hi
        split at h
        · injection h with h; subst h
          simp_all [stepsLeft, State.alive]
        · injection h with h; subst h
          simp_all [stepsLeft, State.alive, mainWeight, Phase.weight]
      · simp at h
    | release i =>
      simp only [stepRelease] at h
      split at h
      · rename_i e hi
        obtain ⟨l1, l2, hl, -, herase⟩ := split_at _ _ _ hi
        split at h
        · injection h with h; subst h
          simp_all [stepsLeft, State.alive, mainWeight, Phase.weight]
        · simp at h
      · simp at h
    | handoff i =>
      simp only [stepHandoff] at h
      split at h
      · split at h
        · rename_i e hi
          obtain ⟨l1, l2, hl, -, herase⟩ := split_at _ _ _ hi
          split at h
          · injection h with h; subst h
            simp_all [stepsLeft, State.alive, mainWeight, Phase.weight]
            omega
          · split at h
            · injection h with h; subst h
              simp_all [stepsLeft, State.alive, mainWeight, Phase.weight]
              omega
            · simp at h
          · simp at h
        · simp at h
      · simp at h
  · simp at h

theorem run_bounded {newKey : String → Key} {parallel : Int} (acts : List Action) :
    ∀ {s s' : State}, run newKey parallel s acts = some s' →
      acts.length + stepsLeft parallel s' ≤ stepsLeft parallel s := by
  induction acts with
  | nil => intro s s' h; simp [run] at h; subst h; simp
  | cons a as ih =>
    intro s s' h
    simp only [run] at h
    split at h
    · simp at h
    · rename_i s1 hs1
      have h1 := ih h
      have h2 := stepsLeft_step hs1
      simp only [List.length_cons]
      omega

theorem run_append {newKey : String → Key} {parallel : Int} (as bs : List Action) :
    ∀ {s s' s'' : State}, run newKey parallel s as = some s' →
      run newKey parallel s' bs = some s'' → run newKey parallel s (as ++ bs) = some s'' := by
  induction as with
  | nil => intro s s' s'' h1 h2; simp [run] at h1; subst h1; simpa using h2
  | cons a as ih =>
    intro s s' s'' h1 h2
    simp only [run, List.cons_append] at h1 ⊢
    split at h1
    · simp at h1
    · rename_i s1 hs1
      exact ih h1 h2

/-- No deadlock before the return: with a concurrency limit of at least one and
an opened destination, some goroutine can always take a step, and a pending
`to.Put` may answer either way. -/
theorem progress {newKey : String → Key} {parallel : Int} {h0 : Handle}
    {results : List Result} {dest0 : Key → Option Value} {s : State}
    (hI : Inv newKey parallel (some h0) results dest0 s) (hp : 1 ≤ parallel)
    (hr : ∀ r, s.pc ≠ .returned r) (o : Option String) :
    ∃ a s', step newKey parallel s a = some s' ∧ (∀ i o', a = .put i o' → o' = o) := by
  obtain ⟨h1, h2, h3, h4, -, -, -, -, -⟩ := hI
  have hcap : 1 ≤ cap parallel := by simp [cap]; omega
  have hal : s.alive = true := by
    unfold State.alive
    split
    · rename_i hpc; rw [hpc] at h4; simp_all
    · rfl
  cases ht : s.tasks with
  | nil =>
    refine ⟨.main, ?_⟩
    simp only [step, hal, if_true, stepMain]
    split
    · split
      · exact ⟨_, rfl, by simp⟩
      · split <;> exact ⟨_, rfl, by simp⟩
    · rename_i e hpc
      rw [hpc] at h4
      have : s.tokens < cap parallel := by simp_all; omega
      simp [this]
    · rename_i i hpc
      rw [hpc] at h4
      split
      · have : s.tokens < cap parallel := by simp_all
        simp [this]
      · split <;> exact ⟨_, rfl, by simp⟩
    · rename_i r hpc; exact absurd hpc (hr r)
    · rename_i hpc; simp [State.alive, hpc] at hal
  | cons t ts =>
    obtain ⟨e, ph⟩ := t
    cases ph with
    | start =>
      refine ⟨.put 0 o, ?_⟩
      simp only [step, hal, if_true, stepPut, ht, h1]
      cases o <;> simp
    | putOk =>
      refine ⟨.record 0, ?_⟩
      have : parallel ≠ 0 := by omega
      simp [step, hal, stepRecord, ht, this]
    | putErr c =>
      refine ⟨.record 0, ?_⟩
      simp [step, hal, stepRecord, ht]
    | done =>
      refine ⟨.release 0, ?_⟩
      have : 0 < s.tokens := by simp_all; omega
      simp [step, hal, stepRelease, ht, this]

/-- From every state satisfying the invariant the execution can be completed
to a return of `clone`. -/
theorem can_return {newKey : String → Key} {parallel : Int} {h0 : Handle}
    {results : List Result} {dest0 : Key → Option Value} (hp : 1 ≤ parallel) :
    ∀ (n : Nat) (s : State), stepsLeft parallel s ≤ n →
      Inv newKey parallel (some h0) results dest0 s →
      ∃ acts s' r, run newKey parallel s acts = some s' ∧ s'.pc = .returned r := by
  intro n
  induction n with
  | zero =>
    intro s hn hI
    by_cases hr : ∃ r, s.pc = .returned r
    · obtain ⟨r, hr⟩ := hr
      exact ⟨[], s, r, rfl, hr⟩
    · obtain ⟨a, s', hs, -⟩ := progress hI hp (fun r h => hr ⟨r, h⟩) none
      have := stepsLeft_step hs
      omega
  | succ n ih =>
    intro s hn hI
    by_cases hr : ∃ r, s.pc = .returned r
    · obtain ⟨r, hr⟩ := hr
      exact ⟨[], s, r, rfl, hr⟩
    · obtain ⟨a, s', hs, -⟩ := progress hI hp (fun r h => hr ⟨r, h⟩) none
      have hlt := stepsLeft_step hs
      obtain ⟨acts, s'', r, hrun, hret⟩ := ih s' (by omega) (inv_step hI hs)
      refine ⟨a :: acts, s'', r, ?_, hret⟩
      simp [run, hs, hrun]

theorem map_entry_okResult (l : List Entry) : (l.map okResult).map Result.entry = l := by
  induction l with
  | nil => rfl
  | cons x xs ih => simp [okResult, ih]

theorem alwaysReturns_copyInit (newKey : String → Key) (parallel : Int) (h0 : Handle)
    (results : List Result) (dest0 : Key → Option Value) (tr : List Effect)
    (hp : 1 ≤ parallel) :
    AlwaysReturns newKey parallel (copyInit (some h0) results dest0 tr) := by
  intro acts s hrun
  constructor
  · have := run_bounded acts hrun
    omega
  · exact can_return hp _ s (le_refl _)
      (inv_run acts (inv_init newKey parallel (some h0) results dest0 tr) hrun)

theorem stepsLeft_copyInit (parallel : Int) (toDS : Option Handle) (results : List Result)
    (dest0 : Key → Option Value) (tr : List Effect) :
    stepsLeft parallel (copyInit toDS results dest0 tr) =
      5 * results.length + cap parallel + 3 := by
  simp [stepsLeft, copyInit, State.alive, mainWeight]
  omega

/-- What the invariant says when `clone` has returned from an enumeration
without read error. -/
theorem returned_of_errorFree {newKey : String → Key} {parallel : Int} {toDS0 : Option Handle}
    {results : List Result} {dest0 : Key → Option Value} {s : State} {r : CloneResult}
    (hI : Inv newKey parallel toDS0 results dest0 s) (hok : ∀ x ∈ results, x.error = none)
    (hr : s.pc = .returned r) :
    s.tasks = [] ∧ s.dispatched = results.map Result.entry ∧
      r = (if s.errors.length > 0 then ⟨none, some (.hadErrors s.errors.length)⟩
           else ⟨toDS0, none⟩) := by
  have h4 := hI.pcInv
  rw [hr] at h4
  rcases h4 with ⟨c, e, -, hres⟩ | ⟨ht, hres, hr'⟩
  · have := hok ⟨e, some c⟩ (by rw [hres]; simp)
    simp at this
  · refine ⟨ht, ?_, ?_⟩
    · rw [hres, map_entry_okResult]
    · rw [hr', hI.toDS_eq]

theorem foldl_applyPut_other (newKey : String → Key) (puts : List PutEvent) :
    ∀ (d : Key → Option Value) (k : Key),
      (∀ p ∈ puts, p.outcome = none → newKey p.entry.key ≠ k) →
      puts.foldl (applyPut newKey) d k = d k := by
  induction puts with
  | nil => intro d k _; rfl
  | cons q ps ih =>
    intro d k h
    simp only [List.foldl_cons]
    rw [ih _ k (fun p hp => h p (List.mem_cons_of_mem _ hp))]
    cases ho : q.outcome with
    | none =>
      have := h q (List.mem_cons_self _ _) ho
      simp [applyPut, ho, update, Ne.symm this]
    | some c => simp [applyPut, ho]

theorem foldl_applyPut_accepted (newKey : String → Key) (puts : List PutEvent) :
    ∀ (d : Key → Option Value),
      (puts.map (fun p => newKey p.entry.key)).Nodup →
      ∀ p ∈ puts, p.outcome = none →
        puts.foldl (applyPut newKey) d (newKey p.entry.key) = some p.entry.value := by
  induction puts with
  | nil => intro d _ p hp; simp at hp
  | cons q ps ih =>
    intro d hnd p hp ho
    simp only [List.map_cons, List.nodup_cons] at hnd
    simp only [List.foldl_cons]
    rcases List.mem_cons.mp hp with rfl | hp'
    · rw [foldl_applyPut_other]
      · simp [applyPut, ho, update]
      · intro p' hp' _ heq
        exact hnd.1 (by rw [← heq]; exact List.mem_map_of_mem _ hp')
    · exact ih _ hnd.2 p hp' ho

theorem foldl_applyPut_rejected (newKey : String → Key) (puts : List PutEvent)
    (d : Key → Option Value) (hnd : (puts.map (fun p => newKey p.entry.key)).Nodup)
    (p : PutEvent) (hp : p ∈ puts) (ho : p.outcome ≠ none) :
    puts.foldl (applyPut newKey) d (newKey p.entry.key) = d (newKey p.entry.key) := by
  apply foldl_applyPut_other
  intro q hq hqo heq
  have : q = p := List.inj_on_of_nodup_map hnd hq hp heq
  subst this
  exact ho hqo

/-- With `parallel = 0` and a first result without error, the only states any
schedule reaches are the initial one and the one blocked at line 126. -/
theorem zero_limit_states (newKey : String → Key) (toDS : Option Handle) (e : Entry)
    (rs : List Result) (dest0 : Key → Option Value) (tr : List Effect) (acts : List Action)
    (s : State)
    (h : run newKey 0 (copyInit toDS (okResult e :: rs) dest0 tr) acts = some s) :
    s = copyInit toDS (okResult e :: rs) dest0 tr ∨
    s = { copyInit toDS (okResult e :: rs) dest0 tr with rest := rs, pc := .acquire e } := by
  cases acts with
  | nil => left; simpa [run] using h.symm
  | cons a as =>
    right
    cases a with
    | main =>
      cases as with
      | nil => simpa [run, step, State.alive, copyInit, stepMain, okResult] using h.symm
      | cons b bs =>
        exfalso
        cases b <;>
          simp [run, step, State.alive, copyInit, stepMain, okResult, cap, stepPut, stepRecord,
            stepRelease, stepHandoff] at h
    | put i o => simp [run, step, State.alive, copyInit, stepPut] at h
    | record i => simp [run, step, State.alive, copyInit, stepRecord] at h
    | release i => simp [run, step, State.alive, copyInit, stepRelease] at h
    | handoff i => simp [run, step, State.alive, copyInit, stepHandoff] at h

/-- Claim C1 (conservation at return).  For an enumeration without read error
(`M = results.length` entries) and a concurrency limit `parallel ≥ 1`, under
every schedule: when `clone` has returned, the entries dispatched are exactly
the `M` entries of the source, in order and once each; the calls of `to.Put`
are a permutation of these entries (none skipped, none retried); no goroutine
is left, so each has recorded its outcome; and `count + len(errors) = M`.
While the drain loop runs with loop variable `i`, `i` plus the number of
unfinished goroutines is at most `cap(lim)`, so the drain cannot complete
while a goroutine still holds a permit.  Moreover `clone` does return: every
execution is finite and can be completed to a return.  The bound `N ≤ M` of
the claim is not needed. -/
theorem clone_conservation_at_return (newKey : String → Key) (toDS : Handle)
    (results : List Result) (dest0 : Key → Option Value) (tr : List Effect) (parallel : Int)
    (hN : 1 ≤ parallel) (hok : ∀ x ∈ results, x.error = none) :
    (∀ acts s r,
        run newKey parallel (copyInit (some toDS) results dest0 tr) acts = some s →
        s.pc = .returned r →
          s.dispatched = results.map Result.entry ∧
          (s.puts.map PutEvent.entry).Perm (results.map Result.entry) ∧
          s.tasks = [] ∧
          s.count + s.errors.length = results.length) ∧
    (∀ acts s i,
        run newKey parallel (copyInit (some toDS) results dest0 tr) acts = some s →
        s.pc = .drain i → i + s.tasks.length ≤ cap parallel) ∧
    AlwaysReturns newKey parallel (copyInit (some toDS) results dest0 tr) := by
  refine ⟨?_, ?_, alwaysReturns_copyInit newKey parallel toDS results dest0 tr hN⟩
  · intro acts s r hrun hr
    have hI := inv_run acts (inv_init newKey parallel (some toDS) results dest0 tr) hrun
    obtain ⟨ht, hd, -⟩ := returned_of_errorFree hI hok hr
    have h5 := hI.recorded
    have h8 := hI.putsPerm
    rw [ht] at h5 h8
    rw [hd] at h5 h8
    refine ⟨hd, by simpa using h8, ht, by simpa using h5⟩
  · intro acts s i hrun hpc
    have hI := inv_run acts (inv_init newKey parallel (some toDS) results dest0 tr) hrun
    have h4 := hI.pcInv
    have h2 := hI.tokens_le
    rw [hpc] at h4
    omega

/-- Claim C2 (batch outcome).  For an enumeration without read error and
`parallel ≥ 1`, under every schedule: when `clone` has returned, all `M`
writes have been attempted, and if the destination rejected exactly `K` of
them then an error is returned if and only if `K > 0`; for `K > 0` the result
is the nil handle with the error `hadErrors K`, whose text is
`"had K errors"` and carries no per-key message; for `K = 0` the result is
the opened destination handle with a nil error.  Moreover `clone` does
return: every execution is finite and can be completed to a return. -/
theorem clone_batch_outcome (newKey : String → Key) (toDS : Handle)
    (results : List Result) (dest0 : Key → Option Value) (tr : List Effect) (parallel : Int)
    (hN : 1 ≤ parallel) (hok : ∀ x ∈ results, x.error = none) :
    (∀ acts s r K,
        run newKey parallel (copyInit (some toDS) results dest0 tr) acts = some s →
        s.pc = .returned r → (rejected s.puts).length = K →
          s.puts.length = results.length ∧
          (r.err ≠ none ↔ 0 < K) ∧
          (0 < K → r = ⟨none, some (.hadErrors K)⟩ ∧
            (CloneError.hadErrors K).message = "had " ++ toString K ++ " errors") ∧
          (K = 0 → r = ⟨some toDS, none⟩)) ∧
    AlwaysReturns newKey parallel (copyInit (some toDS) results dest0 tr) := by
  refine ⟨?_, alwaysReturns_copyInit newKey parallel toDS results dest0 tr hN⟩
  intro acts s r K hrun hr hK
  have hI := inv_run acts (inv_init newKey parallel (some toDS) results dest0 tr) hrun
  obtain ⟨ht, hd, hres⟩ := returned_of_errorFree hI hok hr
  have h6 := hI.rejectedPuts
  have h8 := hI.putsPerm
  rw [ht] at h6 h8
  simp only [List.countP_nil, Nat.add_zero, hK] at h6
  have hlen : s.puts.length = results.length := by
    have := h8.length_eq
    simpa [hd] using this
  rw [← h6] at hres
  refine ⟨hlen, ?_, ?_, ?_⟩
  · by_cases hk : 0 < K <;> simp [hres, hk]
  · intro hk
    exact ⟨by simp [hres, hk], rfl⟩
  · intro hk
    simp [hres, hk]

/-- Claim C4 (bounded concurrency).  For every `parallel ≥ 1`, every source
and every state reachable in the copy loop, the number of goroutines that have
been spawned and have not yet received from `lim` is at most `parallel`: each
of them holds one token of `lim`, and `len(lim)` never exceeds `cap(lim)`. -/
theorem clone_bounded_concurrency (newKey : String → Key) (toDS : Option Handle)
    (results : List Result) (dest0 : Key → Option Value) (tr : List Effect) (parallel : Int)
    (hN : 1 ≤ parallel) (s : State)
    (hs : Reachable newKey parallel (copyInit toDS results dest0 tr) s) :
    (s.tasks.length : Int) ≤ parallel ∧ s.tasks.length ≤ s.tokens ∧
      s.tokens ≤ cap parallel := by
  obtain ⟨acts, hrun⟩ := hs
  have hI := inv_run acts (inv_init newKey parallel toDS results dest0 tr) hrun
  have h2 := hI.tokens_le
  have h3 := hI.tasks_le
  refine ⟨?_, h3, h2⟩
  have : (cap parallel : Int) = parallel := by simp [cap]; omega
  omega

theorem split_okResult (c : String) (e : Entry) (post : List Result) :
    ∀ (d pre : List Entry) (ys : List Result),
      d.map okResult ++ ys = pre.map okResult ++ ⟨e, some c⟩ :: post →
      ∃ p2, pre = d ++ p2 ∧ ys = p2.map okResult ++ ⟨e, some c⟩ :: post := by
  intro d
  induction d with
  | nil => intro pre ys h; exact ⟨pre, by simp, by simpa using h⟩
  | cons x xs ih =>
    intro pre ys h
    cases pre with
    | nil => simp [okResult] at h
    | cons y pre' =>
      simp only [List.map_cons, List.cons_append, List.cons.injEq] at h
      obtain ⟨hxy, h⟩ := h
      obtain ⟨p2, hp, hy⟩ := ih pre' ys h
      have : x = y := by simpa [okResult] using hxy
      exact ⟨p2, by simp [this, hp], hy⟩

/-- Contents of the destination once `clone` has returned from an enumeration
without read error whose destination keys are pairwise distinct. -/
theorem dest_at_return {newKey : String → Key} {parallel : Int} {toDS0 : Option Handle}
    {results : List Result} {dest0 : Key → Option Value} {s : State} {r : CloneResult}
    (hI : Inv newKey parallel toDS0 results dest0 s) (hok : ∀ x ∈ results, x.error = none)
    (hnd : (results.map (fun x => newKey x.entry.key)).Nodup)
    (hr : s.pc = .returned r) :
    (s.puts.map PutEvent.entry).Perm (results.map Result.entry) ∧
    (∀ p ∈ s.puts, p.outcome = none → s.dest (newKey p.entry.key) = some p.entry.value) ∧
    (∀ p ∈ s.puts, p.outcome ≠ none →
      s.dest (newKey p.entry.key) = dest0 (newKey p.entry.key)) ∧
    (∀ k, (∀ x ∈ results, newKey x.entry.key ≠ k) → s.dest k = dest0 k) := by
  obtain ⟨ht, hd, -⟩ := returned_of_errorFree hI hok hr
  have h8 := hI.putsPerm
  rw [ht, hd] at h8
  have hperm : (s.puts.map PutEvent.entry).Perm (results.map Result.entry) := by
    simpa using h8
  have hnd' : (s.puts.map (fun p => newKey p.entry.key)).Nodup := by
    have h1 := hperm.map (fun e : Entry => newKey e.key)
    simp only [List.map_map] at h1
    exact (h1.nodup_iff).mpr (by simpa [Function.comp] using hnd)
  refine ⟨hperm, ?_, ?_, ?_⟩
  · intro p hp ho
    rw [hI.destEq]
    exact foldl_applyPut_accepted newKey s.puts dest0 hnd' p hp ho
  · intro p hp ho
    rw [hI.destEq]
    exact foldl_applyPut_rejected newKey s.puts dest0 hnd' p hp ho
  · intro k hk
    rw [hI.destEq]
    apply foldl_applyPut_other
    intro p hp _
    have : p.entry ∈ results.map Result.entry :=
      hperm.subset (List.mem_map_of_mem _ hp)
    obtain ⟨x, hx, hxe⟩ := List.mem_map.mp this
    rw [← hxe]
    exact hk x hx

/-- Distinct source keys stay distinct in the destination when `newKey` does
not identify two of them. -/
theorem nodup_destination_keys (newKey : String → Key) (results : List Result)
    (hkeys : (results.map (fun x => x.entry.key)).Nodup)
    (hinj : ∀ x ∈ results, ∀ y ∈ results,
      newKey x.entry.key = newKey y.entry.key → x.entry.key = y.entry.key) :
    (results.map (fun x => newKey x.entry.key)).Nodup := by
  have h : ((results.map (fun x => x.entry.key)).map newKey).Nodup := by
    apply List.Nodup.map_on _ hkeys
    intro a ha b hb hab
    obtain ⟨x, hx, rfl⟩ := List.mem_map.mp ha
    obtain ⟨y, hy, rfl⟩ := List.mem_map.mp hb
    exact hinj x hx y hy hab
  simpa [List.map_map, Function.comp] using h

theorem mem_rejected {puts : List PutEvent} {p : PutEvent} :
    p ∈ rejected puts ↔ p ∈ puts ∧ p.outcome ≠ none := by
  simp [rejected, Option.isSome_iff_ne_none]

/-- Counts of accepted and rejected writes once `clone` has returned. -/
theorem counts_at_return {newKey : String → Key} {parallel : Int} {toDS0 : Option Handle}
    {results : List Result} {dest0 : Key → Option Value} {s : State} {r : CloneResult}
    (hI : Inv newKey parallel toDS0 results dest0 s) (hok : ∀ x ∈ results, x.error = none)
    (hr : s.pc = .returned r) :
    (accepted s.puts).length = s.count ∧ (rejected s.puts).length = s.errors.length ∧
      s.count + s.errors.length = results.length := by
  obtain ⟨ht, hd, -⟩ := returned_of_errorFree hI hok hr
  have h5 := hI.recorded
  have h6 := hI.rejectedPuts
  have h7 := hI.acceptedPuts
  rw [ht] at h5 h6 h7
  rw [hd] at h5
  simp at h5 h6 h7
  exact ⟨h7, h6, h5⟩

/-- Claim C3 fails as stated when `ds.NewKey` identifies two distinct source
keys, as it does for `a` and `/a`: both writes are accepted, both go to the
destination key `/a`, and at the return the destination holds the value of
`/a` there, so the pair of `a` is not present although nothing was rejected. -/
theorem clone_destination_contents_merged_keys :
    (∀ x ∈ mergedSource, x.error = none) ∧
    (mergedSource.map (fun x => x.entry.key)).Nodup ∧
    ∃ s, run newKeyLeadingSlash 2 (copyInit (some 7) mergedSource (fun _ => none) [])
        scheduleMerged = some s ∧
      s.pc = .returned ⟨some 7, none⟩ ∧ rejected s.puts = [] ∧
      okResult ⟨"a", [49]⟩ ∈ mergedSource ∧
      s.dest (newKeyLeadingSlash "a") = some [50] ∧
      s.dest (newKeyLeadingSlash "a") ≠ some [49] :=
  ⟨by decide, by decide, _, rfl, rfl, rfl, by decide, by decide, by decide⟩

/-- Claim C3, amended (destination contents after a copy).  The destination is a map
from keys to values; a successful `Put` overwrites the key (`update`), a
rejected one leaves the map unchanged.  The key written is `newKey r.Key`,
where `newKey` stands for `ds.NewKey`; the amendment is the hypothesis that
`newKey` does not identify two of the enumerated keys.

First part: for every enumeration without read error and with distinct keys,
under every schedule, when `clone` has returned: each entry has been written
exactly once; the accepted writes are `M - K` where `K` writes were rejected;
every accepted write left the source's value under its key; every rejected
key holds what it held before the copy; every key that was not enumerated is
unchanged; and if nothing was rejected all `M` pairs are present.

Second part (Scenario A): source `a:1, b:2, c:3`, empty destination, limit 2:
`clone` always returns, and when nothing is rejected it returns the
destination handle and the destination holds exactly the three pairs.

Third part (Scenario C): same source, any limit: when only the write of `b`
is rejected, `clone` returns the error `hadErrors 1` and the destination
holds exactly `a` and `c`. -/
theorem clone_destination_contents :
    (∀ (newKey : String → Key) (toDS : Option Handle) (results : List Result)
        (dest0 : Key → Option Value) (tr : List Effect) (parallel : Int),
        (∀ x ∈ results, x.error = none) →
        (results.map (fun x => x.entry.key)).Nodup →
        (∀ x ∈ results, ∀ y ∈ results,
          newKey x.entry.key = newKey y.entry.key → x.entry.key = y.entry.key) →
        ∀ acts s r,
          run newKey parallel (copyInit toDS results dest0 tr) acts = some s →
          s.pc = .returned r →
            (s.puts.map PutEvent.entry).Perm (results.map Result.entry) ∧
            (accepted s.puts).length = results.length - (rejected s.puts).length ∧
            (∀ p ∈ s.puts, p.outcome = none →
              s.dest (newKey p.entry.key) = some p.entry.value) ∧
            (∀ p ∈ s.puts, p.outcome ≠ none →
              s.dest (newKey p.entry.key) = dest0 (newKey p.entry.key)) ∧
            (∀ k, (∀ x ∈ results, newKey x.entry.key ≠ k) → s.dest k = dest0 k) ∧
            (rejected s.puts = [] →
              ∀ x ∈ results, s.dest (newKey x.entry.key) = some x.entry.value)) ∧
    (∀ (newKey : String → Key) (toDS : Handle) (tr : List Effect),
        (["a", "b", "c"].map newKey).Nodup →
        AlwaysReturns newKey 2 (copyInit (some toDS) scenarioSource (fun _ => none) tr) ∧
        ∀ acts s r,
          run newKey 2 (copyInit (some toDS) scenarioSource (fun _ => none) tr) acts
            = some s →
          s.pc = .returned r → rejected s.puts = [] →
            r = ⟨some toDS, none⟩ ∧
            ∀ k, s.dest k =
              if k = newKey "a" then some [49] else if k = newKey "b" then some [50]
              else if k = newKey "c" then some [51] else none) ∧
    (∀ (newKey : String → Key) (toDS : Handle) (tr : List Effect) (parallel : Int)
        (cause : String),
        (["a", "b", "c"].map newKey).Nodup →
        ∀ acts s r,
          run newKey parallel (copyInit (some toDS) scenarioSource (fun _ => none) tr) acts
            = some s →
          s.pc = .returned r → rejected s.puts = [⟨⟨"b", [50]⟩, some cause⟩] →
            r = ⟨none, some (.hadErrors 1)⟩ ∧
            ∀ k, s.dest k =
              if k = newKey "a" then some [49] else if k = newKey "c" then some [51]
              else none) := by
  have hokS : ∀ x ∈ scenarioSource, x.error = none := by
    intro x hx; simp [scenarioSource, okResult] at hx; rcases hx with rfl | rfl | rfl <;> rfl
  have hndS : ∀ newKey : String → Key, (["a", "b", "c"].map newKey).Nodup →
      (scenarioSource.map (fun x => newKey x.entry.key)).Nodup := by
    intro newKey h; simpa [scenarioSource, okResult] using h
  refine ⟨?_, ?_, ?_⟩
  · intro newKey toDS results dest0 tr parallel hok hkeys hinj acts s r hrun hr
    have hnd := nodup_destination_keys newKey results hkeys hinj
    have hI := inv_run acts (inv_init newKey parallel toDS results dest0 tr) hrun
    obtain ⟨hperm, hacc, hrej, hother⟩ := dest_at_return hI hok hnd hr
    obtain ⟨c1, c2, c3⟩ := counts_at_return hI hok hr
    refine ⟨hperm, by omega, hacc, hrej, hother, ?_⟩
    intro hnil x hx
    have : x.entry ∈ s.puts.map PutEvent.entry :=
      hperm.symm.subset (List.mem_map_of_mem _ hx)
    obtain ⟨p, hp, hpe⟩ := List.mem_map.mp this
    have hpo : p.outcome = none := by
      by_contra hne
      have := mem_rejected.mpr ⟨hp, hne⟩
      rw [hnil] at this
      simp at this
    rw [← hpe]
    exact hacc p hp hpo
  · intro newKey toDS tr hinj
    refine ⟨alwaysReturns_copyInit newKey 2 toDS scenarioSource _ tr (by decide), ?_⟩
    intro acts s r hrun hr hnil
    have hI := inv_run acts (inv_init newKey 2 (some toDS) scenarioSource _ tr) hrun
    obtain ⟨hperm, hacc, hrej, hother⟩ := dest_at_return hI hokS (hndS newKey hinj) hr
    obtain ⟨c1, c2, c3⟩ := counts_at_return hI hokS hr
    obtain ⟨-, -, hres⟩ := returned_of_errorFree hI hokS hr
    have hall : ∀ x ∈ scenarioSource, s.dest (newKey x.entry.key) = some x.entry.value := by
      intro x hx
      have : x.entry ∈ s.puts.map PutEvent.entry :=
        hperm.symm.subset (List.mem_map_of_mem _ hx)
      obtain ⟨p, hp, hpe⟩ := List.mem_map.mp this
      have hpo : p.outcome = none := by
        by_contra hne
        have := mem_rejected.mpr ⟨hp, hne⟩
        rw [hnil] at this
        simp at this
      rw [← hpe]
      exact hacc p hp hpo
    constructor
    · rw [hnil] at c2
      simp at c2
      simp [hres, c2]
    · intro k
      have hinj' : newKey "a" ≠ newKey "b" ∧ newKey "a" ≠ newKey "c" ∧
          newKey "b" ≠ newKey "c" := by
        simpa [and_assoc] using hinj
      obtain ⟨hab, hac, hbc⟩ := hinj'
      have ha := hall (okResult ⟨"a", [49]⟩) (by simp [scenarioSource])
      have hb := hall (okResult ⟨"b", [50]⟩) (by simp [scenarioSource])
      have hc := hall (okResult ⟨"c", [51]⟩) (by simp [scenarioSource])
      simp only [okResult] at ha hb hc
      by_cases h1 : k = newKey "a"
      · simp [h1, ha]
      · by_cases h2 : k = newKey "b"
        · simp [h2, hb, Ne.symm hab]
        · by_cases h3 : k = newKey "c"
          · simp [h3, hc, Ne.symm hac, Ne.symm hbc]
          · simp only [h1, h2, h3, if_false]
            apply hother
            intro x hx
            simp [scenarioSource, okResult] at hx
            rcases hx with rfl | rfl | rfl
            · exact Ne.symm h1
            · exact Ne.symm h2
            · exact Ne.symm h3
  · intro newKey toDS tr parallel cause hinj acts s r hrun hr hrj
    have hI := inv_run acts (inv_init newKey parallel (some toDS) scenarioSource _ tr) hrun
    obtain ⟨hperm, hacc, hrej, hother⟩ := dest_at_return hI hokS (hndS newKey hinj) hr
    obtain ⟨c1, c2, c3⟩ := counts_at_return hI hokS hr
    obtain ⟨-, -, hres⟩ := returned_of_errorFree hI hokS hr
    have hacc' : ∀ x ∈ scenarioSource, x.entry ≠ ⟨"b", [50]⟩ →
        s.dest (newKey x.entry.key) = some x.entry.value := by
      intro x hx hxb
      have : x.entry ∈ s.puts.map PutEvent.entry :=
        hperm.symm.subset (List.mem_map_of_mem _ hx)
      obtain ⟨p, hp, hpe⟩ := List.mem_map.mp this
      have hpo : p.outcome = none := by
        by_contra hne
        have := mem_rejected.mpr ⟨hp, hne⟩
        rw [hrj] at this
        simp at this
        rw [this] at hpe
        exact hxb hpe.symm
      rw [← hpe]
      exact hacc p hp hpo
    constructor
    · rw [hrj] at c2
      simp at c2
      simp [hres, ← c2]
    · intro k
      have hinj' : newKey "a" ≠ newKey "b" ∧ newKey "a" ≠ newKey "c" ∧
          newKey "b" ≠ newKey "c" := by
        simpa [and_assoc] using hinj
      obtain ⟨hab, hac, hbc⟩ := hinj'
      have ha := hacc' (okResult ⟨"a", [49]⟩) (by simp [scenarioSource]) (by simp [okResult])
      have hc := hacc' (okResult ⟨"c", [51]⟩) (by simp [scenarioSource]) (by simp [okResult])
      have hb : s.dest (newKey "b") = none := by
        have hm : (⟨⟨"b", [50]⟩, some cause⟩ : PutEvent) ∈ rejected s.puts := by
          rw [hrj]; simp
        have := hrej _ (mem_rejected.mp hm).1 (by simp)
        simpa using this
      simp only [okResult] at ha hc
      by_cases h1 : k = newKey "a"
      · simp [h1, ha]
      · by_cases h3 : k = newKey "c"
        · simp [h3, hc, Ne.symm hac]
        · simp only [h1, h3, if_false]
          by_cases h2 : k = newKey "b"
          · rw [h2]; exact hb
          · apply hother
            intro x hx
            simp [scenarioSource, okResult] at hx
            rcases hx with rfl | rfl | rfl
            · exact Ne.symm h1
            · exact Ne.symm h2
            · exact Ne.symm h3

/-- Claim C5, amended (a source read error aborts the copy).  Let the first
result carrying a read error `c` be at position `i = pre.length`, after the
error-free entries `pre`, and let `parallel ≥ 1`.  In every reachable state
the entries dispatched are an initial segment of `pre`, so no entry at or
after position `i` is ever dispatched; whenever `clone` has returned, it has
returned the nil handle with the error `gettingNextSourceResult c`, whose
text is `"getting next source result: " ++ c`, exactly the `i` entries of
`pre` have been dispatched, and the error is never `hadErrors n`, whatever
the earlier writes did.  Moreover `clone` does return: every execution is
finite and can be completed to a return. -/
theorem clone_read_error_aborts (newKey : String → Key) (toDS : Handle) (pre : List Entry)
    (e : Entry) (c : String) (post : List Result) (dest0 : Key → Option Value)
    (tr : List Effect) (parallel : Int) (hN : 1 ≤ parallel) :
    (∀ acts s,
        run newKey parallel
          (copyInit (some toDS) (pre.map okResult ++ ⟨e, some c⟩ :: post) dest0 tr) acts
          = some s →
        s.dispatched <+: pre ∧
        ∀ r, s.pc = .returned r →
          r = ⟨none, some (.gettingNextSourceResult c)⟩ ∧ s.dispatched = pre ∧
          (∀ n, r.err ≠ some (.hadErrors n))) ∧
    (CloneError.gettingNextSourceResult c).message = "getting next source result: " ++ c ∧
    AlwaysReturns newKey parallel
      (copyInit (some toDS) (pre.map okResult ++ ⟨e, some c⟩ :: post) dest0 tr) := by
  refine ⟨?_, rfl, alwaysReturns_copyInit newKey parallel toDS _ dest0 tr hN⟩
  intro acts s hrun
  have hI := inv_run acts (inv_init newKey parallel (some toDS) _ dest0 tr) hrun
  have h4 := hI.pcInv
  have h1 := hI.toDS_eq
  have hnil : ∀ d : List Entry,
      pre.map okResult ++ ⟨e, some c⟩ :: post ≠ d.map okResult := by
    intro d h
    have := split_okResult c e post d pre [] (by simpa using h.symm)
    obtain ⟨p2, -, hp⟩ := this
    cases p2 <;> simp at hp
  split at h4
  · obtain ⟨p2, hp, -⟩ := split_okResult c e post _ _ _ h4.2.symm
    refine ⟨⟨p2, hp.symm⟩, ?_⟩
    intro r hr; simp_all
  · obtain ⟨p2, hp, -⟩ := split_okResult c e post _ _ _ h4.2.symm
    refine ⟨⟨p2, hp.symm⟩, ?_⟩
    intro r hr; simp_all
  · exact absurd h4.2.1 (hnil _)
  · rename_i r0 hpc
    rcases h4 with ⟨c', e', hr0, hres⟩ | ⟨-, hres, -⟩
    · obtain ⟨p2, hp, hy⟩ := split_okResult c e post _ _ _ hres.symm
      cases p2 with
      | nil =>
        simp at hy hp
        refine ⟨⟨[], by simp [hp]⟩, ?_⟩
        intro r hr
        rw [hpc] at hr
        injection hr with hr
        subst hr
        simp [hr0, hy.1.2, hp]
      | cons y ys => simp [okResult] at hy
    · exact absurd hres (hnil _)
  · simp [h1] at h4

/-- Claim C5 fails as stated when the limit is not restricted: with
`parallel = 0` and the enumeration `a`, then a read error, `clone` blocks at
the first send on the unbuffered channel and never returns the read error. -/
theorem clone_read_error_zero_limit_never_returns :
    ¬ ∃ acts s r,
        run id 0 (copyInit (some 1) ([(⟨"a", [49]⟩ : Entry)].map okResult ++
            ⟨⟨"b", []⟩, some "read failed"⟩ :: []) (fun _ => none) []) acts = some s ∧
        s.pc = .returned r := by
  rintro ⟨acts, s, r, hrun, hr⟩
  rcases zero_limit_states id (some 1) ⟨"a", [49]⟩ _ _ [] acts s hrun with h | h <;>
    simp [h, copyInit] at hr

/-- Claim C10 fails as stated for an enumeration that holds an error-free
entry behind a read error: with `parallel = 0` and the enumeration "read
error, then `a`", `clone` returns the read error at once. -/
theorem clone_zero_limit_read_error_first_returns :
    okResult ⟨"a", [49]⟩ ∈
      [(⟨⟨"b", []⟩, some "read failed"⟩ : Result), okResult ⟨"a", [49]⟩] ∧
    (okResult ⟨"a", [49]⟩).error = none ∧
    ∃ s, run id 0
        (copyInit (some 7) [⟨⟨"b", []⟩, some "read failed"⟩, okResult ⟨"a", [49]⟩]
          (fun _ => none) []) [.main] = some s ∧
      s.pc = .returned ⟨none, some (.gettingNextSourceResult "read failed")⟩ :=
  ⟨by decide, rfl, _, rfl, rfl⟩

/-- With `parallel = 0` and an empty enumeration the orchestrating goroutine
is the only one that ever runs, and it returns after two steps. -/
theorem zero_limit_empty_states (newKey : String → Key) (toDS : Option Handle)
    (dest0 : Key → Option Value) (tr : List Effect) (acts : List Action) (s : State)
    (h : run newKey 0 (copyInit toDS [] dest0 tr) acts = some s) :
    s = copyInit toDS [] dest0 tr ∨
    s = { copyInit toDS [] dest0 tr with pc := .drain 0 } ∨
    s = { copyInit toDS [] dest0 tr with pc := .returned ⟨toDS, none⟩ } := by
  cases acts with
  | nil => left; simpa [run] using h.symm
  | cons a as =>
    right
    cases a with
    | main =>
      cases as with
      | nil => left; simpa [run, step, State.alive, copyInit, stepMain] using h.symm
      | cons b bs =>
        right
        cases b with
        | main =>
          cases bs with
          | nil => simpa [run, step, State.alive, copyInit, stepMain, cap] using h.symm
          | cons d ds =>
            exfalso
            cases d <;>
              simp [run, step, State.alive, copyInit, stepMain, cap, stepPut, stepRecord,
                stepRelease, stepHandoff] at h
        | put i o => simp [run, step, State.alive, copyInit, stepMain, stepPut] at h
        | record i => simp [run, step, State.alive, copyInit, stepMain, stepRecord] at h
        | release i => simp [run, step, State.alive, copyInit, stepMain, stepRelease] at h
        | handoff i =>
          simp [run, step, State.alive, copyInit, stepMain, stepHandoff, cap] at h
    | put i o => simp [run, step, State.alive, copyInit, stepPut] at h
    | record i => simp [run, step, State.alive, copyInit, stepRecord] at h
    | release i => simp [run, step, State.alive, copyInit, stepRelease] at h
    | handoff i => simp [run, step, State.alive, copyInit, stepHandoff] at h

/-- Claim C10, amended (the concurrency limit is not validated).  With
`parallel = 0` and an enumeration whose first result is an error-free entry
`e`, whatever follows it: in every
reachable state no goroutine exists, nothing has been dispatched, no `Put`
has happened, the counter is still 0 (so `count % parallel` has not been
evaluated and the process has not panicked), and `clone` has not returned;
after the first step the orchestrating goroutine is at the send of line 126
and no action at all is enabled.  With `parallel = 0` and an empty
enumeration every execution can be completed to a return, and the only
result ever returned is the destination handle with a nil error. -/
theorem clone_zero_limit (newKey : String → Key) (toDS : Option Handle) (e : Entry)
    (rs : List Result) (dest0 : Key → Option Value) (tr : List Effect) :
    (∀ acts s, run newKey 0 (copyInit toDS (okResult e :: rs) dest0 tr) acts = some s →
        s.tasks = [] ∧ s.dispatched = [] ∧ s.puts = [] ∧ s.count = 0 ∧
        s.pc ≠ .panicked ∧ (∀ r, s.pc ≠ .returned r)) ∧
    (∃ s, run newKey 0 (copyInit toDS (okResult e :: rs) dest0 tr) [.main] = some s ∧
        s.pc = .acquire e ∧ ∀ a, step newKey 0 s a = none) ∧
    (∀ acts s, run newKey 0 (copyInit toDS [] dest0 tr) acts = some s →
        (∀ r, s.pc = .returned r → r = ⟨toDS, none⟩) ∧
        ∃ acts' s', run newKey 0 s acts' = some s' ∧ s'.pc = .returned ⟨toDS, none⟩) := by
  refine ⟨?_, ?_, ?_⟩
  · intro acts s hrun
    rcases zero_limit_states newKey toDS e rs dest0 tr acts s hrun with h | h <;>
      simp [h, copyInit]
  · refine ⟨_, rfl, rfl, ?_⟩
    intro a
    cases a <;>
      simp [step, State.alive, copyInit, stepMain, okResult, cap, stepPut, stepRecord,
        stepRelease, stepHandoff]
  · intro acts s hrun
    rcases zero_limit_empty_states newKey toDS dest0 tr acts s hrun with h | h | h
    · subst h
      exact ⟨by simp [copyInit], [.main, .main], _, rfl, rfl⟩
    · subst h
      exact ⟨by simp [copyInit], [.main], _, rfl, rfl⟩
    · subst h
      exact ⟨by simp [copyInit], [], _, rfl, rfl⟩

theorem utf8ByteSize_go_eq_zero : ∀ cs : List Char, String.utf8ByteSize.go cs = 0 ↔ cs = []
  | [] => by simp [String.utf8ByteSize.go]
  | c :: cs => by
    have := Char.utf8Size_pos c
    simp [String.utf8ByteSize.go]
    omega

theorem len_eq_zero_iff (s : String) : len s = 0 ↔ s = "" := by
  cases s with
  | mk cs =>
    simp only [len, String.utf8ByteSize, utf8ByteSize_go_eq_zero]
    constructor
    · intro h; subst h; rfl
    · intro h; simpa using congrArg String.data h

theorem openBadgerSource_error {w : World} {fb : String} {tr tr' : List Effect}
    {e : CloneError} (h : openBadgerSource w fb tr = .error (e, tr')) :
    fb ≠ "" ∧ tr' = tr ++ [.badgerNewDatastore fb] ∧ ∃ c, e = .connectingBadgerSource c := by
  unfold openBadgerSource at h
  simp only [ne_eq, len_eq_zero_iff] at h
  repeat' split at h
  all_goals
    first
    | (simp at h; done)
    | (simp only [Except.error.injEq, Except.ok.injEq, Prod.mk.injEq] at h
       obtain ⟨rfl, rfl⟩ := h
       simp_all)

theorem openBadgerSource_ok {w : World} {fb : String} {tr tr' : List Effect}
    {f : Option Handle} (h : openBadgerSource w fb tr = .ok (f, tr')) :
    (fb = "" ∧ f = none ∧ tr' = tr) ∨
    (fb ≠ "" ∧ tr' = tr ++ [.badgerNewDatastore fb] ∧ ∃ x, f = some x) := by
  unfold openBadgerSource at h
  simp only [ne_eq, len_eq_zero_iff] at h
  repeat' split at h
  all_goals
    first
    | (simp at h; done)
    | (simp only [Except.error.injEq, Except.ok.injEq, Prod.mk.injEq] at h
       obtain ⟨rfl, rfl⟩ := h
       simp_all)

theorem openBadgerDestination_error {w : World} {tb : String} {tr tr' : List Effect}
    {e : CloneError} (h : openBadgerDestination w tb tr = .error (e, tr')) :
    tb ≠ "" ∧
    ((tr' = tr ++ [.mkdirAll tb] ∧ ∃ c, w.mkdirAll tr tb = some c ∧
        e = .makingDestinationPath c) ∨
     (tr' = tr ++ [.mkdirAll tb, .badgerNewDatastore tb] ∧
        ∃ c, e = .connectingBadgerDestination c)) := by
  unfold openBadgerDestination at h
  simp only [ne_eq, len_eq_zero_iff] at h
  repeat' split at h
  all_goals
    first
    | (simp at h; done)
    | (simp only [Except.error.injEq, Except.ok.injEq, Prod.mk.injEq] at h
       obtain ⟨rfl, rfl⟩ := h
       simp_all)

theorem openBadgerDestination_ok {w : World} {tb : String} {tr tr' : List Effect}
    {t : Option Handle} (h : openBadgerDestination w tb tr = .ok (t, tr')) :
    (tb = "" ∧ t = none ∧ tr' = tr) ∨
    (tb ≠ "" ∧ tr' = tr ++ [.mkdirAll tb, .badgerNewDatastore tb] ∧ ∃ x, t = some x) := by
  unfold openBadgerDestination at h
  simp only [ne_eq, len_eq_zero_iff] at h
  repeat' split at h
  all_goals
    first
    | (simp at h; done)
    | (simp only [Except.error.injEq, Except.ok.injEq, Prod.mk.injEq] at h
       obtain ⟨rfl, rfl⟩ := h
       simp_all)

theorem openMongoSource_error {w : World} {fu fd fc : String} {f0 : Option Handle}
    {tr tr' : List Effect} {e : CloneError}
    (h : openMongoSource w fu fd fc f0 tr = .error (e, tr')) :
    fu ≠ "" ∧
    ((tr' = tr ∧ ∃ c, w.urlParse fu = some c ∧ e = .parsingSourceMongoURI c) ∨
     (tr' = tr ∧ w.urlParse fu = none ∧ fd = "" ∧ e = .sourceMongoDatabaseNotSpecified) ∨
     (tr' = tr ++ [.mongoNew fu fd fc] ∧ fd ≠ "" ∧ ∃ c, e = .connectingMongoSource c)) := by
  unfold openMongoSource at h
  simp only [ne_eq, len_eq_zero_iff] at h
  repeat' split at h
  all_goals
    first
    | (simp at h; done)
    | (simp only [Except.error.injEq, Except.ok.injEq, Prod.mk.injEq] at h
       obtain ⟨rfl, rfl⟩ := h
       simp_all)

theorem openMongoSource_ok {w : World} {fu fd fc : String} {f0 f : Option Handle}
    {tr tr' : List Effect} (h : openMongoSource w fu fd fc f0 tr = .ok (f, tr')) :
    (fu = "" ∧ f = f0 ∧ tr' = tr) ∨
    (fu ≠ "" ∧ fd ≠ "" ∧ tr' = tr ++ [.mongoNew fu fd fc] ∧ ∃ x, f = some x) := by
  unfold openMongoSource at h
  simp only [ne_eq, len_eq_zero_iff] at h
  repeat' split at h
  all_goals
    first
    | (simp at h; done)
    | (simp only [Except.error.injEq, Except.ok.injEq, Prod.mk.injEq] at h
       obtain ⟨rfl, rfl⟩ := h
       simp_all)

theorem openMongoDestination_error {w : World} {tu td tc : String} {t0 : Option Handle}
    {tr tr' : List Effect} {e : CloneError}
    (h : openMongoDestination w tu td tc t0 tr = .error (e, tr')) :
    tu ≠ "" ∧
    ((tr' = tr ∧ ∃ c, w.urlParse tu = some c ∧ e = .parsingDestinationMongoURI c) ∨
     (tr' = tr ∧ w.urlParse tu = none ∧ td = "" ∧
        e = .destinationMongoDatabaseNotSpecified) ∨
     (tr' = tr ++ [.mongoNew tu td tc] ∧ td ≠ "" ∧
        ∃ c, e = .connectingMongoDestination c)) := by
  unfold openMongoDestination at h
  simp only [ne_eq, len_eq_zero_iff] at h
  repeat' split at h
  all_goals
    first
    | (simp at h; done)
    | (simp only [Except.error.injEq, Except.ok.injEq, Prod.mk.injEq] at h
       obtain ⟨rfl, rfl⟩ := h
       simp_all)

theorem openMongoDestination_ok {w : World} {tu td tc : String} {t0 t : Option Handle}
    {tr tr' : List Effect} (h : openMongoDestination w tu td tc t0 tr = .ok (t, tr')) :
    (tu = "" ∧ t = t0 ∧ tr' = tr) ∨
    (tu ≠ "" ∧ td ≠ "" ∧ tr' = tr ++ [.mongoNew tu td tc] ∧ ∃ x, t = some x) := by
  unfold openMongoDestination at h
  simp only [ne_eq, len_eq_zero_iff] at h
  repeat' split at h
  all_goals
    first
    | (simp at h; done)
    | (simp only [Except.error.injEq, Except.ok.injEq, Prod.mk.injEq] at h
       obtain ⟨rfl, rfl⟩ := h
       simp_all)

/-- The five ways through lines 47-58. -/
theorem setup_cases (w : World) (fb fu fd fc tb tu td tc : String) :
    (fb ≠ "" ∧ fu ≠ "" ∧ setup w fb fu fd fc tb tu td tc = .error (.multipleSources, [])) ∨
    (fb = "" ∧ fu = "" ∧
      setup w fb fu fd fc tb tu td tc = .error (.sourceNotSpecified, [])) ∨
    ((fb = "" ↔ fu ≠ "") ∧ tb ≠ "" ∧ tu ≠ "" ∧
      setup w fb fu fd fc tb tu td tc = .error (.multipleDestinations, [])) ∨
    ((fb = "" ↔ fu ≠ "") ∧ tb = "" ∧ tu = "" ∧
      setup w fb fu fd fc tb tu td tc = .error (.destinationNotSpecified, [])) ∨
    ((fb = "" ↔ fu ≠ "") ∧ (tb = "" ↔ tu ≠ "") ∧
      setup w fb fu fd fc tb tu td tc = openStores w fb fu fd fc tb tu td tc) := by
  by_cases hfb : fb = "" <;> by_cases hfu : fu = "" <;> by_cases htb : tb = "" <;>
    by_cases htu : tu = "" <;> simp [setup, len_eq_zero_iff, hfb, hfu, htb, htu]

/-- An error of lines 60-109 is the error of one opening block, reached after
the blocks before it succeeded. -/
theorem openStores_error {w : World} {fb fu fd fc tb tu td tc : String} {e : CloneError}
    {tr : List Effect} (h : openStores w fb fu fd fc tb tu td tc = .error (e, tr)) :
    openBadgerSource w fb [] = .error (e, tr) ∨
    ∃ f1 tr1, openBadgerSource w fb [] = .ok (f1, tr1) ∧
      (openBadgerDestination w tb tr1 = .error (e, tr) ∨
       ∃ t1 tr2, openBadgerDestination w tb tr1 = .ok (t1, tr2) ∧
        (openMongoSource w fu fd fc f1 tr2 = .error (e, tr) ∨
         ∃ f2 tr3, openMongoSource w fu fd fc f1 tr2 = .ok (f2, tr3) ∧
          openMongoDestination w tu td tc t1 tr3 = .error (e, tr))) := by
  unfold openStores at h
  cases h1 : openBadgerSource w fb [] with
  | error x => rw [h1] at h; left; simpa using h
  | ok x1 =>
    obtain ⟨f1, tr1⟩ := x1
    rw [h1] at h
    simp only at h
    refine Or.inr ⟨f1, tr1, rfl, ?_⟩
    cases h2 : openBadgerDestination w tb tr1 with
    | error x => rw [h2] at h; left; simpa using h
    | ok x2 =>
      obtain ⟨t1, tr2⟩ := x2
      rw [h2] at h
      simp only at h
      refine Or.inr ⟨t1, tr2, rfl, ?_⟩
      cases h3 : openMongoSource w fu fd fc f1 tr2 with
      | error x => rw [h3] at h; left; simpa using h
      | ok x3 =>
        obtain ⟨f2, tr3⟩ := x3
        rw [h3] at h
        simp only at h
        refine Or.inr ⟨f2, tr3, rfl, ?_⟩
        cases h4 : openMongoDestination w tu td tc t1 tr3 with
        | error x => rw [h4] at h; simpa using h
        | ok x4 => rw [h4] at h; simp at h

theorem run_stuck {newKey : String → Key} {parallel : Int} {s : State}
    (hs : ∀ a, step newKey parallel s a = none) :
    ∀ (acts : List Action) (s' : State), run newKey parallel s acts = some s' → s' = s := by
  intro acts s' h
  cases acts with
  | nil => simpa [run] using h.symm
  | cons a as => simp [run, hs a] at h

theorem step_returnError (newKey : String → Key) (parallel : Int) (e : CloneError)
    (tr : List Effect) (a : Action) : step newKey parallel (returnError e tr) a = none := by
  cases a <;>
    simp [step, State.alive, returnError, stepMain, stepPut, stepRecord, stepRelease,
      stepHandoff]

theorem step_panicked (newKey : String → Key) (parallel : Int) {s : State}
    (h : s.pc = .panicked) (a : Action) : step newKey parallel s a = none := by
  simp [step, State.alive, h]

theorem reachable_returnError {newKey : String → Key} {parallel : Int} {e : CloneError}
    {tr : List Effect} {s : State} :
    Reachable newKey parallel (returnError e tr) s ↔ s = returnError e tr := by
  constructor
  · rintro ⟨acts, h⟩
    exact run_stuck (step_returnError newKey parallel e tr) acts s h
  · rintro rfl
    exact ⟨[], rfl⟩

theorem returns_returnError {newKey : String → Key} {parallel : Int} {e : CloneError}
    {tr : List Effect} {r : CloneResult} :
    Returns newKey parallel (returnError e tr) r ↔ r = ⟨none, some e⟩ := by
  constructor
  · rintro ⟨s, hs, hr⟩
    rw [reachable_returnError.mp hs] at hr
    simpa [returnError] using hr.symm
  · rintro rfl
    exact ⟨_, reachable_returnError.mpr rfl, rfl⟩

/-- What the copy loop can return. -/
theorem returns_copyInit {newKey : String → Key} {parallel : Int} {toDS : Option Handle}
    {results : List Result} {dest0 : Key → Option Value} {tr : List Effect}
    {r : CloneResult} (h : Returns newKey parallel (copyInit toDS results dest0 tr) r) :
    (∃ c, r = ⟨none, some (.gettingNextSourceResult c)⟩) ∨
    (∃ n, r = ⟨none, some (.hadErrors n)⟩) ∨ r = ⟨toDS, none⟩ := by
  obtain ⟨s, ⟨acts, hrun⟩, hr⟩ := h
  have hI := inv_run acts (inv_init newKey parallel toDS results dest0 tr) hrun
  have h4 := hI.pcInv
  rw [hr] at h4
  rcases h4 with ⟨c, e, h, -⟩ | ⟨-, -, h⟩
  · exact Or.inl ⟨c, h⟩
  · right
    split at h
    · exact Or.inl ⟨_, h⟩
    · right; rw [h, hI.toDS_eq]

/-- What `clone` can return once the stores are open. -/
theorem returns_startCopy {newKey : String → Key} {parallel : Int} {w : World}
    {fromDS toDS : Option Handle} {tr : List Effect} {r : CloneResult}
    (h : Returns newKey parallel (startCopy w fromDS toDS parallel tr) r) :
    (∃ c, r = ⟨none, some (.queryingSource c)⟩) ∨
    (∃ c, r = ⟨none, some (.gettingNextSourceResult c)⟩) ∨
    (∃ n, r = ⟨none, some (.hadErrors n)⟩) ∨ r = ⟨toDS, none⟩ := by
  unfold startCopy at h
  split at h
  · obtain ⟨s, ⟨acts, hrun⟩, hr⟩ := h
    have := run_stuck (step_panicked newKey parallel rfl) acts s hrun
    rw [this] at hr
    simp at hr
  · split at h
    · exact Or.inl ⟨_, returns_returnError.mp h⟩
    · simp only at h
      split at h
      · obtain ⟨s, ⟨acts, hrun⟩, hr⟩ := h
        have := run_stuck (step_panicked newKey parallel rfl) acts s hrun
        rw [this] at hr
        simp at hr
      · exact Or.inr (returns_copyInit h)

/-- What `clone` can return. -/
theorem returns_clone {newKey : String → Key} {parallel : Int} {w : World}
    {fb fu fd fc tb tu td tc : String} {verbose : Bool} {r : CloneResult}
    (h : Returns newKey parallel (clone w fb fu fd fc tb tu td tc parallel verbose) r) :
    (∃ e tr, setup w fb fu fd fc tb tu td tc = .error (e, tr) ∧ r = ⟨none, some e⟩) ∨
    (∃ x, setup w fb fu fd fc tb tu td tc = .ok x ∧
      ((∃ c, r = ⟨none, some (.queryingSource c)⟩) ∨
       (∃ c, r = ⟨none, some (.gettingNextSourceResult c)⟩) ∨
       (∃ n, r = ⟨none, some (.hadErrors n)⟩) ∨ r = ⟨x.2.1, none⟩)) := by
  unfold clone at h
  split at h
  · rename_i e tr hs
    exact Or.inl ⟨e, tr, hs, returns_returnError.mp h⟩
  · rename_i f t tr hs
    exact Or.inr ⟨_, hs, returns_startCopy h⟩

theorem clone_of_setup_error {w : World} {fb fu fd fc tb tu td tc : String} {e : CloneError}
    {tr : List Effect} (parallel : Int) (verbose : Bool)
    (h : setup w fb fu fd fc tb tu td tc = .error (e, tr)) :
    clone w fb fu fd fc tb tu td tc parallel verbose = returnError e tr := by
  simp [clone, h]

theorem openStores_not_endpointCount {w : World} {fb fu fd fc tb tu td tc : String}
    {e : CloneError} {tr : List Effect}
    (h : openStores w fb fu fd fc tb tu td tc = .error (e, tr)) :
    e.isEndpointCount = false := by
  rcases openStores_error h with h1 | ⟨f1, tr1, -, h2 | ⟨t1, tr2, -, h3 | ⟨f2, tr3, -, h4⟩⟩⟩
  · obtain ⟨-, -, c, rfl⟩ := openBadgerSource_error h1; rfl
  · obtain ⟨-, ⟨-, c, -, rfl⟩ | ⟨-, c, rfl⟩⟩ := openBadgerDestination_error h2 <;> rfl
  · obtain ⟨-, ⟨-, c, -, rfl⟩ | ⟨-, -, -, rfl⟩ | ⟨-, -, c, rfl⟩⟩ :=
      openMongoSource_error h3 <;> rfl
  · obtain ⟨-, ⟨-, c, -, rfl⟩ | ⟨-, -, -, rfl⟩ | ⟨-, -, c, rfl⟩⟩ :=
      openMongoDestination_error h4 <;> rfl

/-- An endpoint-count error is returned exactly when `setup` produces it. -/
theorem returnsError_iff_setup {newKey : String → Key} {parallel : Int} {w : World}
    {fb fu fd fc tb tu td tc : String} {verbose : Bool} (e : CloneError)
    (he : e.isEndpointCount = true) :
    ReturnsError newKey parallel (clone w fb fu fd fc tb tu td tc parallel verbose) e ↔
      ∃ tr, setup w fb fu fd fc tb tu td tc = .error (e, tr) := by
  constructor
  · rintro ⟨r, hr, hre⟩
    rcases returns_clone hr with ⟨e', tr, hs, rfl⟩ | ⟨x, -, h⟩
    · simp at hre; subst hre; exact ⟨tr, hs⟩
    · rcases h with ⟨c, rfl⟩ | ⟨c, rfl⟩ | ⟨n, rfl⟩ | rfl <;> simp at hre <;> subst hre <;>
        simp [CloneError.isEndpointCount] at he
  · rintro ⟨tr, hs⟩
    refine ⟨⟨none, some e⟩, ?_, rfl⟩
    rw [clone_of_setup_error parallel verbose hs]
    exact returns_returnError.mpr rfl

theorem setup_endpointCount_iff (w : World) (fb fu fd fc tb tu td tc : String) :
    ((∃ tr, setup w fb fu fd fc tb tu td tc = .error (.multipleSources, tr)) ↔
      fb ≠ "" ∧ fu ≠ "") ∧
    ((∃ tr, setup w fb fu fd fc tb tu td tc = .error (.sourceNotSpecified, tr)) ↔
      fb = "" ∧ fu = "") ∧
    ((∃ tr, setup w fb fu fd fc tb tu td tc = .error (.multipleDestinations, tr)) ↔
      (fb = "" ↔ fu ≠ "") ∧ tb ≠ "" ∧ tu ≠ "") ∧
    ((∃ tr, setup w fb fu fd fc tb tu td tc = .error (.destinationNotSpecified, tr)) ↔
      (fb = "" ↔ fu ≠ "") ∧ tb = "" ∧ tu = "") := by
  rcases setup_cases w fb fu fd fc tb tu td tc with
    ⟨a, b, h⟩ | ⟨a, b, h⟩ | ⟨a, b, c, h⟩ | ⟨a, b, c, h⟩ | ⟨a, b, h⟩
  · rw [h]; simp [a, b]
  · rw [h]; simp [a, b]
  · rw [h]; simp [a, b, c]
  · rw [h]; simp [a, b, c]
  · rw [h]
    have hn : ∀ e tr, e.isEndpointCount = true →
        openStores w fb fu fd fc tb tu td tc ≠ .error (e, tr) := by
      intro e tr he h'
      rw [openStores_not_endpointCount h'] at he
      simp at he
    have h1 := fun tr => hn .multipleSources tr rfl
    have h2 := fun tr => hn .sourceNotSpecified tr rfl
    have h3 := fun tr => hn .multipleDestinations tr rfl
    have h4 := fun tr => hn .destinationNotSpecified tr rfl
    simp only [h1, h2, h3, h4, exists_false, false_iff, not_and]
    refine ⟨?_, ?_, ?_, ?_⟩
    · intro x y; exact x (a.mpr y)
    · intro x y; exact a.mp x y
    · intro _ x y; exact x (b.mpr y)
    · intro _ x y; exact b.mp x y

/-- Claim C6 (endpoint-count validation).  For all field values and all
behaviours of the collaborators: `clone` returns "multiple sources specified"
exactly when both source fields are non-empty; "source not specified" exactly
when both are empty; "multiple destinations specified" exactly when one
source field is populated and both destination fields are non-empty;
"destination not specified" exactly when one source field is populated and
both destination fields are empty; with exactly one source field and exactly
one destination field populated none of the four errors is ever returned; and
every error comes with a nil handle. -/
theorem clone_endpoint_validation (newKey : String → Key) (w : World)
    (fb fu fd fc tb tu td tc : String) (parallel : Int) (verbose : Bool) :
    (ReturnsError newKey parallel (clone w fb fu fd fc tb tu td tc parallel verbose)
        .multipleSources ↔ fb ≠ "" ∧ fu ≠ "") ∧
    (ReturnsError newKey parallel (clone w fb fu fd fc tb tu td tc parallel verbose)
        .sourceNotSpecified ↔ fb = "" ∧ fu = "") ∧
    (ReturnsError newKey parallel (clone w fb fu fd fc tb tu td tc parallel verbose)
        .multipleDestinations ↔ (fb = "" ↔ fu ≠ "") ∧ tb ≠ "" ∧ tu ≠ "") ∧
    (ReturnsError newKey parallel (clone w fb fu fd fc tb tu td tc parallel verbose)
        .destinationNotSpecified ↔ (fb = "" ↔ fu ≠ "") ∧ tb = "" ∧ tu = "") ∧
    ((fb = "" ↔ fu ≠ "") → (tb = "" ↔ tu ≠ "") →
      ∀ e, ReturnsError newKey parallel
        (clone w fb fu fd fc tb tu td tc parallel verbose) e → e.isEndpointCount = false) ∧
    (∀ r e, Returns newKey parallel (clone w fb fu fd fc tb tu td tc parallel verbose) r →
      r.err = some e → r.handle = none) ∧
    (CloneError.multipleSources.message = "multiple sources specified" ∧
      CloneError.sourceNotSpecified.message = "source not specified" ∧
      CloneError.multipleDestinations.message = "multiple destinations specified" ∧
      CloneError.destinationNotSpecified.message = "destination not specified") := by
  obtain ⟨h1, h2, h3, h4⟩ := setup_endpointCount_iff w fb fu fd fc tb tu td tc
  refine ⟨?_, ?_, ?_, ?_, ?_, ?_, ⟨rfl, rfl, rfl, rfl⟩⟩
  · rw [returnsError_iff_setup .multipleSources rfl]; exact h1
  · rw [returnsError_iff_setup .sourceNotSpecified rfl]; exact h2
  · rw [returnsError_iff_setup .multipleDestinations rfl]; exact h3
  · rw [returnsError_iff_setup .destinationNotSpecified rfl]; exact h4
  · intro hs hd e he
    by_contra hne
    have hec : e.isEndpointCount = true := by simpa using hne
    obtain ⟨tr, hse⟩ := (returnsError_iff_setup e hec).mp he
    cases e <;> simp [CloneError.isEndpointCount] at hec
    · have := h1.mp ⟨tr, hse⟩; exact this.1 (hs.mpr this.2)
    · have := h2.mp ⟨tr, hse⟩; exact hs.mp this.1 this.2
    · have := h3.mp ⟨tr, hse⟩; exact this.2.1 (hd.mpr this.2.2)
    · have := h4.mp ⟨tr, hse⟩; exact hd.mp this.2.1 this.2.2
  · intro r e hr he
    rcases returns_clone hr with ⟨e', tr, -, rfl⟩ | ⟨x, -, h⟩
    · rfl
    · rcases h with ⟨c, rfl⟩ | ⟨c, rfl⟩ | ⟨n, rfl⟩ | rfl
      · rfl
      · rfl
      · rfl
      · simp at he

/-- Claim C9 (the exported operation).  `CloneFromRemoteToLocal` is `clone`
with an empty local source and an empty remote destination; hence it never
returns "multiple sources specified" or "multiple destinations specified",
it returns "source not specified" if and only if the URI is empty, and
"destination not specified" if and only if the URI is non-empty and the
repository path is empty. -/
theorem cloneFromRemoteToLocal_eq_clone (newKey : String → Key) (w : World)
    (uri db coll repo : String) (parallel : Int) (verbose : Bool) :
    CloneFromRemoteToLocal w uri db coll repo parallel verbose =
      clone w "" uri db coll repo "" "" "" parallel verbose ∧
    ¬ ReturnsError newKey parallel
        (CloneFromRemoteToLocal w uri db coll repo parallel verbose) .multipleSources ∧
    ¬ ReturnsError newKey parallel
        (CloneFromRemoteToLocal w uri db coll repo parallel verbose) .multipleDestinations ∧
    (ReturnsError newKey parallel
        (CloneFromRemoteToLocal w uri db coll repo parallel verbose) .sourceNotSpecified ↔
      uri = "") ∧
    (ReturnsError newKey parallel
        (CloneFromRemoteToLocal w uri db coll repo parallel verbose)
        .destinationNotSpecified ↔ uri ≠ "" ∧ repo = "") := by
  obtain ⟨h1, h2, h3, h4⟩ := setup_endpointCount_iff w "" uri db coll repo "" "" ""
  unfold CloneFromRemoteToLocal
  refine ⟨rfl, ?_, ?_, ?_, ?_⟩
  · rw [returnsError_iff_setup .multipleSources rfl, h1]; simp
  · rw [returnsError_iff_setup .multipleDestinations rfl, h3]; simp
  · rw [returnsError_iff_setup .sourceNotSpecified rfl, h2]; simp
  · rw [returnsError_iff_setup .destinationNotSpecified rfl, h4]; simp

/-- Effects performed before each configuration error of `setup`. -/
theorem setup_error_effects {w : World} {fb fu fd fc tb tu td tc : String} {e : CloneError}
    {tr : List Effect} (h : setup w fb fu fd fc tb tu td tc = .error (e, tr)) :
    (e.isEndpointCount = true → tr = []) ∧
    (e = .sourceMongoDatabaseNotSpecified →
      tr = [] ∨ tr = [.mkdirAll tb, .badgerNewDatastore tb]) ∧
    (e = .destinationMongoDatabaseNotSpecified →
      (tr = [.badgerNewDatastore fb] ∨ tr = [.mongoNew fu fd fc]) ∧
      Effect.mongoNew tu td tc ∉ tr) := by
  rcases setup_cases w fb fu fd fc tb tu td tc with
    ⟨a, b, h'⟩ | ⟨a, b, h'⟩ | ⟨a, b, c, h'⟩ | ⟨a, b, c, h'⟩ | ⟨a, b, h'⟩
  · rw [h'] at h; simp at h; obtain ⟨rfl, rfl⟩ := h; simp
  · rw [h'] at h; simp at h; obtain ⟨rfl, rfl⟩ := h; simp
  · rw [h'] at h; simp at h; obtain ⟨rfl, rfl⟩ := h; simp
  · rw [h'] at h; simp at h; obtain ⟨rfl, rfl⟩ := h; simp
  · rw [h'] at h
    refine ⟨?_, ?_, ?_⟩
    · intro he
      rw [openStores_not_endpointCount h] at he
      simp at he
    · rintro rfl
      rcases openStores_error h with
        h1 | ⟨f1, tr1, o1, h2 | ⟨t1, tr2, o2, h3 | ⟨f2, tr3, o3, h4⟩⟩⟩
      · obtain ⟨-, -, c, hc⟩ := openBadgerSource_error h1; simp at hc
      · obtain ⟨-, ⟨-, c, -, hc⟩ | ⟨-, c, hc⟩⟩ := openBadgerDestination_error h2 <;>
          simp at hc
      · obtain ⟨hfu, ⟨-, c, -, hc⟩ | ⟨htr, -, -, -⟩ | ⟨-, -, c, hc⟩⟩ :=
          openMongoSource_error h3
        · simp at hc
        · have hfb : fb = "" := a.mpr hfu
          rcases openBadgerSource_ok o1 with ⟨-, -, e1⟩ | ⟨x, -, -⟩
          · rcases openBadgerDestination_ok o2 with ⟨-, -, e2⟩ | ⟨-, e2, -⟩
            · left; rw [htr, e2, e1]
            · right; rw [htr, e2, e1]; rfl
          · exact absurd hfb x
        · simp at hc
      · obtain ⟨-, ⟨-, c, -, hc⟩ | ⟨-, -, -, hc⟩ | ⟨-, -, c, hc⟩⟩ :=
          openMongoDestination_error h4 <;> simp at hc
    · rintro rfl
      rcases openStores_error h with
        h1 | ⟨f1, tr1, o1, h2 | ⟨t1, tr2, o2, h3 | ⟨f2, tr3, o3, h4⟩⟩⟩
      · obtain ⟨-, -, c, hc⟩ := openBadgerSource_error h1; simp at hc
      · obtain ⟨-, ⟨-, c, -, hc⟩ | ⟨-, c, hc⟩⟩ := openBadgerDestination_error h2 <;>
          simp at hc
      · obtain ⟨-, ⟨-, c, -, hc⟩ | ⟨-, -, -, hc⟩ | ⟨-, -, c, hc⟩⟩ :=
          openMongoSource_error h3 <;> simp at hc
      · obtain ⟨htu, ⟨-, c, -, hc⟩ | ⟨htr, -, htd, -⟩ | ⟨-, -, c, hc⟩⟩ :=
          openMongoDestination_error h4
        · simp at hc
        · have htb : tb = "" := b.mpr htu
          have e2 : tr2 = tr1 := by
            rcases openBadgerDestination_ok o2 with ⟨-, -, e2⟩ | ⟨x, -, -⟩
            · exact e2
            · exact absurd htb x
          rcases openBadgerSource_ok o1 with ⟨hfb, -, e1⟩ | ⟨hfb, e1, -⟩
          · rcases openMongoSource_ok o3 with ⟨hfu, -, -⟩ | ⟨-, hfd, e3, -⟩
            · exact absurd hfu (a.mp hfb)
            · have : tr = [.mongoNew fu fd fc] := by rw [htr, e3, e2, e1]; rfl
              refine ⟨Or.inr this, ?_⟩
              rw [this, htd]
              simp
              intro _ hd
              exact absurd hd.symm hfd
          · rcases openMongoSource_ok o3 with ⟨-, -, e3⟩ | ⟨hfu, -, -, -⟩
            · have : tr = [.badgerNewDatastore fb] := by rw [htr, e3, e2, e1]; rfl
              refine ⟨Or.inl this, ?_⟩
              rw [this]
              simp
            · exact absurd (a.mpr hfu) hfb
        · simp at hc

/-- A returned state of `clone` is either the early return of `setup`, or a
return of the copy phase. -/
theorem reachable_clone_returned {newKey : String → Key} {parallel : Int} {w : World}
    {fb fu fd fc tb tu td tc : String} {verbose : Bool} {s : State} {r : CloneResult}
    (hs : Reachable newKey parallel (clone w fb fu fd fc tb tu td tc parallel verbose) s)
    (hr : s.pc = .returned r) :
    (∃ e tr, setup w fb fu fd fc tb tu td tc = .error (e, tr) ∧ s = returnError e tr) ∨
    (∃ x, setup w fb fu fd fc tb tu td tc = .ok x ∧
      ((∃ c, r = ⟨none, some (.queryingSource c)⟩) ∨
       (∃ c, r = ⟨none, some (.gettingNextSourceResult c)⟩) ∨
       (∃ n, r = ⟨none, some (.hadErrors n)⟩) ∨ r = ⟨x.2.1, none⟩)) := by
  cases hset : setup w fb fu fd fc tb tu td tc with
  | error x =>
    obtain ⟨e, tr⟩ := x
    left
    rw [clone_of_setup_error parallel verbose hset] at hs
    exact ⟨e, tr, rfl, reachable_returnError.mp hs⟩
  | ok x =>
    right
    have : Returns newKey parallel (clone w fb fu fd fc tb tu td tc parallel verbose) r :=
      ⟨s, hs, hr⟩
    rcases returns_clone this with ⟨e, tr, h, -⟩ | ⟨y, h, hy⟩
    · rw [hset] at h; simp at h
    · rw [hset] at h
      simp at h
      subst h
      exact ⟨x, rfl, hy⟩

/-- Claim C7, amended (effects before a configuration error).  Whenever
`clone` has returned an error `e`: if `e` is one of the four endpoint-count
errors, no external effect has happened; if `e` is "source mongo database not
specified", no `mongods.New` has been called, and the effects are either none
or exactly `os.MkdirAll` and `badger.NewDatastore` on the local destination;
if `e` is "destination mongo database not specified", `mongods.New` has not
been called for the destination, and the effects are exactly the opening of
the source, `badger.NewDatastore` or `mongods.New`. -/
theorem clone_configuration_error_effects (newKey : String → Key) (w : World)
    (fb fu fd fc tb tu td tc : String) (parallel : Int) (verbose : Bool) (s : State)
    (r : CloneResult) (e : CloneError)
    (hs : Reachable newKey parallel (clone w fb fu fd fc tb tu td tc parallel verbose) s)
    (hr : s.pc = .returned r) (he : r.err = some e) :
    (e.isEndpointCount = true → s.effects = []) ∧
    (e = .sourceMongoDatabaseNotSpecified →
      s.effects = [] ∨ s.effects = [.mkdirAll tb, .badgerNewDatastore tb]) ∧
    (e = .destinationMongoDatabaseNotSpecified →
      (s.effects = [.badgerNewDatastore fb] ∨ s.effects = [.mongoNew fu fd fc]) ∧
      Effect.mongoNew tu td tc ∉ s.effects) := by
  rcases reachable_clone_returned hs hr with ⟨e', tr, hset, rfl⟩ | ⟨x, -, hx⟩
  · have hre : r = ⟨none, some e'⟩ := by simpa [returnError] using hr.symm
    have : e' = e := by rw [hre] at he; simpa using he
    subst this
    exact setup_error_effects hset
  · rcases hx with ⟨c, rfl⟩ | ⟨c, rfl⟩ | ⟨n, rfl⟩ | rfl <;> simp at he <;> subst he <;>
      simp [CloneError.isEndpointCount]

/-- When `clone` ends in `returnError e tr`, the only result is `nil, e`. -/
theorem clone_eq_returnError {newKey : String → Key} {parallel : Int} {w : World}
    {fb fu fd fc tb tu td tc : String} {verbose : Bool} {e : CloneError} {tr : List Effect}
    (h : clone w fb fu fd fc tb tu td tc parallel verbose = returnError e tr) :
    ∀ r, Returns newKey parallel (clone w fb fu fd fc tb tu td tc parallel verbose) r ↔
      r = ⟨none, some e⟩ := by
  intro r
  rw [h]
  exact returns_returnError

/-- A remote source with an empty database: `clone` fails before any
`mongods.New`, and the error returned is fixed by the first step that fails. -/
theorem clone_source_database_missing (newKey : String → Key) (w : World)
    (fb fu fd fc tb tu td tc : String) (parallel : Int) (verbose : Bool)
    (hfb : fb = "") (hfu : fu ≠ "") (hfd : fd = "") (hd : tb = "" ↔ tu ≠ "") :
    ∃ e tr, clone w fb fu fd fc tb tu td tc parallel verbose = returnError e tr ∧
      (∀ r, Returns newKey parallel (clone w fb fu fd fc tb tu td tc parallel verbose) r ↔
        r = ⟨none, some e⟩) ∧
      (∀ u d c, Effect.mongoNew u d c ∉ tr) ∧
      (∀ c, tb ≠ "" → w.mkdirAll [] tb = some c → e = .makingDestinationPath c) ∧
      (∀ c, tb ≠ "" → w.mkdirAll [] tb = none →
        w.badgerNewDatastore [.mkdirAll tb] tb = .error c →
        e = .connectingBadgerDestination c) ∧
      ((tb = "" ∨ (w.mkdirAll [] tb = none ∧
          ∃ h, w.badgerNewDatastore [.mkdirAll tb] tb = .ok h)) →
        (∀ c, w.urlParse fu = some c → e = .parsingSourceMongoURI c) ∧
        (w.urlParse fu = none → e = .sourceMongoDatabaseNotSpecified)) := by
  subst hfb; subst hfd
  by_cases htb : tb = ""
  · have htu := hd.mp htb
    subst htb
    cases hp : w.urlParse fu with
    | some c =>
      have h : clone w "" fu "" fc "" tu td tc parallel verbose =
          returnError (.parsingSourceMongoURI c) [] := by
        simp [clone, setup, openStores, openBadgerSource, openBadgerDestination,
          openMongoSource, len_eq_zero_iff, hfu, htu, hp]
      exact ⟨_, _, h, clone_eq_returnError h, by simp, by simp, by simp, by simp⟩
    | none =>
      have h : clone w "" fu "" fc "" tu td tc parallel verbose =
          returnError .sourceMongoDatabaseNotSpecified [] := by
        simp [clone, setup, openStores, openBadgerSource, openBadgerDestination,
          openMongoSource, len_eq_zero_iff, hfu, htu, hp]
      exact ⟨_, _, h, clone_eq_returnError h, by simp, by simp, by simp, by simp⟩
  · have htu : tu = "" := by
      by_contra hne
      exact htb (hd.mpr hne)
    subst htu
    cases hm : w.mkdirAll [] tb with
    | some c =>
      have h : clone w "" fu "" fc tb "" td tc parallel verbose =
          returnError (.makingDestinationPath c) [.mkdirAll tb] := by
        simp [clone, setup, openStores, openBadgerSource, openBadgerDestination,
          len_eq_zero_iff, hfu, htb, hm]
      exact ⟨_, _, h, clone_eq_returnError h, by simp, by simp, by simp, by simp [htb]⟩
    | none =>
      cases hb : w.badgerNewDatastore [.mkdirAll tb] tb with
      | error c =>
        have h : clone w "" fu "" fc tb "" td tc parallel verbose =
            returnError (.connectingBadgerDestination c)
              [.mkdirAll tb, .badgerNewDatastore tb] := by
          simp [clone, setup, openStores, openBadgerSource, openBadgerDestination,
            len_eq_zero_iff, hfu, htb, hm, hb]
        exact ⟨_, _, h, clone_eq_returnError h, by simp, by simp, by simp, by simp [htb]⟩
      | ok x =>
        cases hp : w.urlParse fu with
        | some c =>
          have h : clone w "" fu "" fc tb "" td tc parallel verbose =
              returnError (.parsingSourceMongoURI c)
                [.mkdirAll tb, .badgerNewDatastore tb] := by
            simp [clone, setup, openStores, openBadgerSource, openBadgerDestination,
              openMongoSource, len_eq_zero_iff, hfu, htb, hm, hb, hp]
          exact ⟨_, _, h, clone_eq_returnError h, by simp, by simp, by simp, by simp⟩
        | none =>
          have h : clone w "" fu "" fc tb "" td tc parallel verbose =
              returnError .sourceMongoDatabaseNotSpecified
                [.mkdirAll tb, .badgerNewDatastore tb] := by
            simp [clone, setup, openStores, openBadgerSource, openBadgerDestination,
              openMongoSource, len_eq_zero_iff, hfu, htb, hm, hb, hp]
          exact ⟨_, _, h, clone_eq_returnError h, by simp, by simp, by simp, by simp⟩

/-- A remote destination with an empty database: `clone` fails before any
`mongods.New` for the destination, and the error returned is fixed by the first
step that fails. -/
theorem clone_destination_database_missing (newKey : String → Key) (w : World)
    (fb fu fd fc tb tu td tc : String) (parallel : Int) (verbose : Bool)
    (htb : tb = "") (htu : tu ≠ "") (htd : td = "") (hs : fb = "" ↔ fu ≠ "") :
    ∃ e tr, clone w fb fu fd fc tb tu td tc parallel verbose = returnError e tr ∧
      (∀ r, Returns newKey parallel (clone w fb fu fd fc tb tu td tc parallel verbose) r ↔
        r = ⟨none, some e⟩) ∧
      Effect.mongoNew tu td tc ∉ tr ∧
      (∀ c, fb ≠ "" → w.badgerNewDatastore [] fb = .error c →
        e = .connectingBadgerSource c) ∧
      (∀ c, fb = "" → w.urlParse fu = some c → e = .parsingSourceMongoURI c) ∧
      (fb = "" → w.urlParse fu = none → fd = "" → e = .sourceMongoDatabaseNotSpecified) ∧
      (∀ c, fb = "" → w.urlParse fu = none → fd ≠ "" →
        w.mongoNew [] fu fd fc = .error c → e = .connectingMongoSource c) ∧
      (((fb ≠ "" ∧ ∃ h, w.badgerNewDatastore [] fb = .ok h) ∨
        (fb = "" ∧ w.urlParse fu = none ∧ fd ≠ "" ∧
          ∃ h, w.mongoNew [] fu fd fc = .ok h)) →
        (∀ c, w.urlParse tu = some c → e = .parsingDestinationMongoURI c) ∧
        (w.urlParse tu = none → e = .destinationMongoDatabaseNotSpecified)) := by
  subst htb; subst htd
  by_cases hfb : fb = ""
  · have hfu := hs.mp hfb
    subst hfb
    cases hp : w.urlParse fu with
    | some c =>
      have h : clone w "" fu fd fc "" tu "" tc parallel verbose =
          returnError (.parsingSourceMongoURI c) [] := by
        simp [clone, setup, openStores, openBadgerSource, openBadgerDestination,
          openMongoSource, len_eq_zero_iff, hfu, htu, hp]
      exact ⟨_, _, h, clone_eq_returnError h, by simp, by simp, by simp, by simp, by simp,
        by simp⟩
    | none =>
      by_cases hfd : fd = ""
      · have h : clone w "" fu fd fc "" tu "" tc parallel verbose =
            returnError .sourceMongoDatabaseNotSpecified [] := by
          simp [clone, setup, openStores, openBadgerSource, openBadgerDestination,
            openMongoSource, len_eq_zero_iff, hfu, htu, hp, hfd]
        exact ⟨_, _, h, clone_eq_returnError h, by simp, by simp, by simp, by simp,
          by simp [hfd], by simp [hfd]⟩
      · cases hm : w.mongoNew [] fu fd fc with
        | error c =>
          have h : clone w "" fu fd fc "" tu "" tc parallel verbose =
              returnError (.connectingMongoSource c) [.mongoNew fu fd fc] := by
            simp [clone, setup, openStores, openBadgerSource, openBadgerDestination,
              openMongoSource, len_eq_zero_iff, hfu, htu, hp, hfd, hm]
          refine ⟨_, _, h, clone_eq_returnError h, ?_, by simp, by simp, by simp [hfd],
            by simp, by simp⟩
          simp only [List.mem_singleton, Effect.mongoNew.injEq, not_and]
          intro _ h2
          exact absurd h2.symm hfd
        | ok x =>
          have hno : Effect.mongoNew tu "" tc ∉ [Effect.mongoNew fu fd fc] := by
            simp only [List.mem_singleton, Effect.mongoNew.injEq, not_and]
            intro _ h2
            exact absurd h2.symm hfd
          cases hq : w.urlParse tu with
          | some c =>
            have h : clone w "" fu fd fc "" tu "" tc parallel verbose =
                returnError (.parsingDestinationMongoURI c) [.mongoNew fu fd fc] := by
              simp [clone, setup, openStores, openBadgerSource, openBadgerDestination,
                openMongoSource, openMongoDestination, len_eq_zero_iff, hfu, htu, hp, hfd,
                hm, hq]
            exact ⟨_, _, h, clone_eq_returnError h, hno, by simp, by simp, by simp [hfd],
              by simp, by simp⟩
          | none =>
            have h : clone w "" fu fd fc "" tu "" tc parallel verbose =
                returnError .destinationMongoDatabaseNotSpecified [.mongoNew fu fd fc] := by
              simp [clone, setup, openStores, openBadgerSource, openBadgerDestination,
                openMongoSource, openMongoDestination, len_eq_zero_iff, hfu, htu, hp, hfd,
                hm, hq]
            exact ⟨_, _, h, clone_eq_returnError h, hno, by simp, by simp, by simp [hfd],
              by simp, by simp⟩
  · have hfu : fu = "" := by
      by_contra hne
      exact hfb (hs.mpr hne)
    subst hfu
    cases hb : w.badgerNewDatastore [] fb with
    | error c =>
      have h : clone w fb "" fd fc "" tu "" tc parallel verbose =
          returnError (.connectingBadgerSource c) [.badgerNewDatastore fb] := by
        simp [clone, setup, openStores, openBadgerSource, len_eq_zero_iff, hfb, htu, hb]
      exact ⟨_, _, h, clone_eq_returnError h, by simp, by simp, by simp [hfb], by simp [hfb],
        by simp [hfb], by simp [hfb]⟩
    | ok x =>
      cases hq : w.urlParse tu with
      | some c =>
        have h : clone w fb "" fd fc "" tu "" tc parallel verbose =
            returnError (.parsingDestinationMongoURI c) [.badgerNewDatastore fb] := by
          simp [clone, setup, openStores, openBadgerSource, openBadgerDestination,
            openMongoSource, openMongoDestination, len_eq_zero_iff, hfb, htu, hb, hq]
        exact ⟨_, _, h, clone_eq_returnError h, by simp, by simp, by simp [hfb],
          by simp [hfb], by simp [hfb], by simp⟩
      | none =>
        have h : clone w fb "" fd fc "" tu "" tc parallel verbose =
            returnError .destinationMongoDatabaseNotSpecified [.badgerNewDatastore fb] := by
          simp [clone, setup, openStores, openBadgerSource, openBadgerDestination,
            openMongoSource, openMongoDestination, len_eq_zero_iff, hfb, htu, hb, hq]
        exact ⟨_, _, h, clone_eq_returnError h, by simp, by simp, by simp [hfb],
          by simp [hfb], by simp [hfb], by simp⟩

/-- Claim C8, amended (a remote endpoint requires a database).

Remote source with an empty database, exactly one destination field
populated: `clone` fails, that is, it returns a nil handle and one error `e`,
and no `mongods.New` is ever called.  When the local destination directory
cannot be created, `e` is "making destination path" with the cause given by
`os.MkdirAll`; when the local destination store cannot be opened, `e` is
"connecting to badger destination" with the cause given by
`badger.NewDatastore`; when there is no local destination or it was created
and opened, `e` is the URI-parse error if the URI does not parse and "source
mongo database not specified" if it does.

Remote destination with an empty database, exactly one source field
populated: `clone` fails and `mongods.New` is never called for the
destination.  When the source cannot be opened, `e` is the error of that step:
"connecting to badger source", the source URI-parse error, "source mongo
database not specified", or "connecting to mongo source"; when the source was
opened, `e` is the destination URI-parse error if the URI does not parse and
"destination mongo database not specified" if it does. -/
theorem clone_remote_requires_database (newKey : String → Key) (w : World)
    (fb fu fd fc tb tu td tc : String) (parallel : Int) (verbose : Bool) :
    (fb = "" → fu ≠ "" → fd = "" → (tb = "" ↔ tu ≠ "") →
      ∃ e tr, clone w fb fu fd fc tb tu td tc parallel verbose = returnError e tr ∧
        (∀ r, Returns newKey parallel (clone w fb fu fd fc tb tu td tc parallel verbose) r ↔
          r = ⟨none, some e⟩) ∧
        (∀ u d c, Effect.mongoNew u d c ∉ tr) ∧
        (∀ c, tb ≠ "" → w.mkdirAll [] tb = some c → e = .makingDestinationPath c) ∧
        (∀ c, tb ≠ "" → w.mkdirAll [] tb = none →
          w.badgerNewDatastore [.mkdirAll tb] tb = .error c →
          e = .connectingBadgerDestination c) ∧
        ((tb = "" ∨ (w.mkdirAll [] tb = none ∧
            ∃ h, w.badgerNewDatastore [.mkdirAll tb] tb = .ok h)) →
          (∀ c, w.urlParse fu = some c → e = .parsingSourceMongoURI c) ∧
          (w.urlParse fu = none → e = .sourceMongoDatabaseNotSpecified))) ∧
    (tb = "" → tu ≠ "" → td = "" → (fb = "" ↔ fu ≠ "") →
      ∃ e tr, clone w fb fu fd fc tb tu td tc parallel verbose = returnError e tr ∧
        (∀ r, Returns newKey parallel (clone w fb fu fd fc tb tu td tc parallel verbose) r ↔
          r = ⟨none, some e⟩) ∧
        Effect.mongoNew tu td tc ∉ tr ∧
        (∀ c, fb ≠ "" → w.badgerNewDatastore [] fb = .error c →
          e = .connectingBadgerSource c) ∧
        (∀ c, fb = "" → w.urlParse fu = some c → e = .parsingSourceMongoURI c) ∧
        (fb = "" → w.urlParse fu = none → fd = "" → e = .sourceMongoDatabaseNotSpecified) ∧
        (∀ c, fb = "" → w.urlParse fu = none → fd ≠ "" →
          w.mongoNew [] fu fd fc = .error c → e = .connectingMongoSource c) ∧
        (((fb ≠ "" ∧ ∃ h, w.badgerNewDatastore [] fb = .ok h) ∨
          (fb = "" ∧ w.urlParse fu = none ∧ fd ≠ "" ∧
            ∃ h, w.mongoNew [] fu fd fc = .ok h)) →
          (∀ c, w.urlParse tu = some c → e = .parsingDestinationMongoURI c) ∧
          (w.urlParse tu = none → e = .destinationMongoDatabaseNotSpecified))) ∧
    (CloneError.sourceMongoDatabaseNotSpecified.message =
        "source mongo database not specified" ∧
      CloneError.destinationMongoDatabaseNotSpecified.message =
        "destination mongo database not specified" ∧
      (∀ c, (CloneError.makingDestinationPath c).message =
        "making destination path: " ++ c) ∧
      (∀ c, (CloneError.parsingSourceMongoURI c).message =
        "parsing source mongo URI: " ++ c) ∧
      (∀ c, (CloneError.parsingDestinationMongoURI c).message =
        "parsing destination mongo URI: " ++ c)) :=
  ⟨clone_source_database_missing newKey w fb fu fd fc tb tu td tc parallel verbose,
   clone_destination_database_missing newKey w fb fu fd fc tb tu td tc parallel verbose,
   rfl, rfl, fun _ => rfl, fun _ => rfl, fun _ => rfl⟩

/-- Claim C7 fails as stated for the missing-database error: called with a
remote source without database and a local destination,
`CloneFromRemoteToLocal` returns "source mongo database not specified" after
the destination directory has been created and the local store opened. -/
theorem clone_database_error_after_opening :
    ∃ s r,
      Reachable id 4
        (CloneFromRemoteToLocal worldAllOk "mongodb://host" "" "things" "/data/badger" 4
          false) s ∧
      s.pc = .returned r ∧ r.err = some .sourceMongoDatabaseNotSpecified ∧
      s.effects = [.mkdirAll "/data/badger", .badgerNewDatastore "/data/badger"] ∧
      s.effects ≠ [] :=
  ⟨_, _, ⟨[], rfl⟩, rfl, rfl, rfl, by decide⟩

/-- Witness for C7: with both source fields populated `clone` returns
"multiple sources specified" and no effect has happened. -/
theorem clone_configuration_error_effects_witness :
    Reachable id 4
      (clone worldAllOk "/data/a" "mongodb://host" "db" "things" "/data/badger" "" "" "" 4
        false)
      (returnError .multipleSources []) ∧
    (returnError .multipleSources []).pc = .returned ⟨none, some .multipleSources⟩ ∧
    (returnError .multipleSources []).effects = [] :=
  ⟨⟨[], rfl⟩, rfl,
    (clone_configuration_error_effects id worldAllOk "/data/a" "mongodb://host" "db" "things"
      "/data/badger" "" "" "" 4 false (returnError .multipleSources [])
      ⟨none, some .multipleSources⟩ .multipleSources ⟨[], rfl⟩ rfl rfl).1 rfl⟩

/-- Claim C8 fails as stated: with a remote source without database and a
local destination whose directory cannot be created, the error returned is
"making destination path", not the missing-database error. -/
theorem clone_missing_database_masked :
    Returns id 4
      (CloneFromRemoteToLocal worldMkdirFails "mongodb://host" "" "things" "/data/badger" 4
        false)
      ⟨none, some (.makingDestinationPath "permission denied")⟩ ∧
    ¬ ReturnsError id 4
      (CloneFromRemoteToLocal worldMkdirFails "mongodb://host" "" "things" "/data/badger" 4
        false)
      .sourceMongoDatabaseNotSpecified := by
  have h : CloneFromRemoteToLocal worldMkdirFails "mongodb://host" "" "things" "/data/badger"
      4 false = returnError (.makingDestinationPath "permission denied")
        [.mkdirAll "/data/badger"] := rfl
  rw [h]
  refine ⟨returns_returnError.mpr rfl, ?_⟩
  rintro ⟨r, hr, he⟩
  rw [returns_returnError.mp hr] at he
  simp at he

/-- Witness for C8: a remote source without database and a local destination
that opens; the error is "source mongo database not specified" and no
`mongods.New` was called. -/
theorem clone_remote_requires_database_witness :
    ∃ e tr,
      clone worldAllOk "" "mongodb://host" "" "things" "/data/badger" "" "" "" 4 false =
        returnError e tr ∧
      e = .sourceMongoDatabaseNotSpecified ∧
      (∀ u d c, Effect.mongoNew u d c ∉ tr) := by
  obtain ⟨e, tr, h1, -, h3, -, -, h6⟩ :=
    (clone_remote_requires_database id worldAllOk "" "mongodb://host" "" "things"
      "/data/badger" "" "" "" 4 false).1 rfl (by decide) rfl (by decide)
  exact ⟨e, tr, h1, (h6 (Or.inr ⟨rfl, 1, rfl⟩)).2 rfl, h3⟩

/-- Witness for C1: Scenario A with limit 2 under `scheduleA`. -/
theorem clone_conservation_witness :
    (1 : Int) ≤ 2 ∧ (∀ x ∈ scenarioSource, x.error = none) ∧
    ∃ s, run id 2 (copyInit (some 7) scenarioSource (fun _ => none) []) scheduleA = some s ∧
      s.pc = .returned ⟨some 7, none⟩ ∧ s.count + s.errors.length = 3 ∧ s.tasks = [] :=
  ⟨by decide, by decide, _, rfl, rfl,
    ((clone_conservation_at_return id 7 scenarioSource (fun _ => none) [] 2 (by decide)
      (by decide)).1 scheduleA _ _ rfl rfl).2.2.2,
    ((clone_conservation_at_return id 7 scenarioSource (fun _ => none) [] 2 (by decide)
      (by decide)).1 scheduleA _ _ rfl rfl).2.2.1⟩

/-- Lines 111-121 on a successful query: `clone` enters the copy loop in the
state `copyInit`. -/
theorem startCopy_eq_copyInit (w : World) (src : Handle) (toDS : Option Handle)
    (parallel : Int) (tr : List Effect) (results : List Result)
    (hq : w.query tr src = .ok results) (hp : 0 ≤ parallel) :
    startCopy w (some src) toDS parallel tr =
      copyInit toDS results (initialContents w tr toDS) tr := by
  have : ¬ parallel < 0 := by omega
  simp [startCopy, hq, this]

/-- Scenario A and C through the exported operation: with `worldScenario` the
set-up succeeds and the copy loop starts in `copyInit`. -/
theorem cloneFromRemoteToLocal_scenario :
    CloneFromRemoteToLocal worldScenario "mongodb://host" "db" "things" "/data/badger" 2 false
      = copyInit (some 7) scenarioSource (fun _ => none)
          [.mkdirAll "/data/badger", .badgerNewDatastore "/data/badger",
           .mongoNew "mongodb://host" "db" "things"] := rfl

/-- Witness for C2: Scenario C with limit 2 under `scheduleC`; one write is
rejected and the error is `hadErrors 1`. -/
theorem clone_batch_outcome_witness :
    (1 : Int) ≤ 2 ∧ (∀ x ∈ scenarioSource, x.error = none) ∧
    ∃ s r, run id 2 (copyInit (some 7) scenarioSource (fun _ => none) []) scheduleC = some s ∧
      s.pc = .returned r ∧ (rejected s.puts).length = 1 ∧
      r = ⟨none, some (.hadErrors 1)⟩ :=
  ⟨by decide, by decide, _, _, rfl, rfl, rfl,
    (((clone_batch_outcome id 7 scenarioSource (fun _ => none) [] 2 (by decide)
      (by decide)).1 scheduleC _ _ 1 rfl rfl rfl).2.2.1 (by decide)).1⟩

/-- Witness for C3: Scenario C with limit 2 under `scheduleC`. -/
theorem clone_destination_contents_witness :
    (∀ x ∈ scenarioSource, x.error = none) ∧
    (scenarioSource.map (fun x => x.entry.key)).Nodup ∧
    (∀ x ∈ scenarioSource, ∀ y ∈ scenarioSource,
      id x.entry.key = id y.entry.key → x.entry.key = y.entry.key) ∧
    ∃ s, run id 2 (copyInit (some 7) scenarioSource (fun _ => none) []) scheduleC = some s ∧
      s.pc = .returned ⟨none, some (.hadErrors 1)⟩ ∧
      (accepted s.puts).length = scenarioSource.length - (rejected s.puts).length ∧
      s.dest "z" = none :=
  ⟨by decide, by decide, fun _ _ _ _ h => h, _, rfl, rfl,
    (clone_destination_contents.1 id (some 7) scenarioSource (fun _ => none) [] 2 (by decide)
      (by decide) (fun _ _ _ _ h => h) scheduleC _ _ rfl rfl).2.1,
    (clone_destination_contents.1 id (some 7) scenarioSource (fun _ => none) [] 2 (by decide)
      (by decide) (fun _ _ _ _ h => h) scheduleC _ _ rfl rfl).2.2.2.2.1 "z" (by decide)⟩

/-- Witness for C4: with limit 2 and two entries dispatched, two goroutines
are in flight. -/
theorem clone_bounded_concurrency_witness :
    (1 : Int) ≤ 2 ∧
    ∃ s, run id 2 (copyInit (some 7) scenarioSource (fun _ => none) [])
        [.main, .main, .main, .main] = some s ∧
      s.tasks.length = 2 ∧ (s.tasks.length : Int) ≤ 2 :=
  ⟨by decide, _, rfl, rfl,
    (clone_bounded_concurrency id (some 7) scenarioSource (fun _ => none) [] 2 (by decide) _
      ⟨[.main, .main, .main, .main], rfl⟩).1⟩

/-- Witness for C5: limit 2, one entry and then a read error. -/
theorem clone_read_error_aborts_witness :
    (1 : Int) ≤ 2 ∧
    ∃ s, run id 2
        (copyInit (some 7)
          ([(⟨"a", [49]⟩ : Entry)].map okResult ++ ⟨⟨"b", []⟩, some "read failed"⟩ :: [])
          (fun _ => none) []) [.main, .main, .main] = some s ∧
      s.pc = .returned ⟨none, some (.gettingNextSourceResult "read failed")⟩ ∧
      s.dispatched = [⟨"a", [49]⟩] ∧ s.tasks.length = 1 :=
  ⟨by decide, _, rfl, rfl,
    (((clone_read_error_aborts id 7 [⟨"a", [49]⟩] ⟨"b", []⟩ "read failed" [] (fun _ => none) []
      2 (by decide)).1 [.main, .main, .main] _ rfl).2 _ rfl).2.1, rfl⟩

end Clone
